import Mathlib

/-!
# Verification of the twarc-csv streaming conversion pipeline

A shallow embedding of `dataframe_converter.py` and `csv_writer.py`
(the `DataFrameConverter` / `CSVConverter` classes), together with
theorems settling the specification claims about deduplication,
reference inlining, retweet merging, schema-drift handling, header
emission and batch-size invariance.

JSON values are modelled by the inductive `JVal`; Python `dict`s are
modelled as insertion-ordered association lists with unique keys
(`Rec`), with `setKey` reproducing Python's "replace in place if the
key exists, append otherwise" assignment semantics and `eraseKey`
reproducing `dict.pop(k, None)`.
-/

/-- A JSON value, as produced by `json.loads`.  Python `None` is `null`,
dicts are `obj` (insertion-ordered association lists), lists are `arr`. -/
inductive JVal where
  | str (s : String)
  | num (n : Int)
  | bool (b : Bool)
  | null
  | arr (elems : List JVal)
  | obj (fields : List (String × JVal))
  deriving Repr

mutual

/-- Structural equality of JSON values (Python `==` on parsed JSON). -/
def JVal.beq : JVal → JVal → Bool
  | .str a, .str b => a == b
  | .num a, .num b => a == b
  | .bool a, .bool b => a == b
  | .null, .null => true
  | .arr a, .arr b => JVal.beqList a b
  | .obj a, .obj b => JVal.beqFields a b
  | _, _ => false

def JVal.beqList : List JVal → List JVal → Bool
  | [], [] => true
  | a :: as, b :: bs => JVal.beq a b && JVal.beqList as bs
  | _, _ => false

def JVal.beqFields : List (String × JVal) → List (String × JVal) → Bool
  | [], [] => true
  | (k1, v1) :: as, (k2, v2) :: bs =>
      k1 == k2 && JVal.beq v1 v2 && JVal.beqFields as bs
  | _, _ => false

end

mutual

theorem JVal.beq_iff : ∀ a b : JVal, JVal.beq a b = true ↔ a = b
  | .str a, .str b => by simp [JVal.beq]
  | .num a, .num b => by simp [JVal.beq]
  | .bool a, .bool b => by simp [JVal.beq]
  | .null, .null => by simp [JVal.beq]
  | .arr a, .arr b => by simp [JVal.beq, JVal.beqList_iff a b]
  | .obj a, .obj b => by simp [JVal.beq, JVal.beqFields_iff a b]
  | .str _, .num _ | .str _, .bool _ | .str _, .null | .str _, .arr _ | .str _, .obj _
  | .num _, .str _ | .num _, .bool _ | .num _, .null | .num _, .arr _ | .num _, .obj _
  | .bool _, .str _ | .bool _, .num _ | .bool _, .null | .bool _, .arr _ | .bool _, .obj _
  | .null, .str _ | .null, .num _ | .null, .bool _ | .null, .arr _ | .null, .obj _
  | .arr _, .str _ | .arr _, .num _ | .arr _, .bool _ | .arr _, .null | .arr _, .obj _
  | .obj _, .str _ | .obj _, .num _ | .obj _, .bool _ | .obj _, .null | .obj _, .arr _ =>
      by simp [JVal.beq]

theorem JVal.beqList_iff : ∀ a b : List JVal, JVal.beqList a b = true ↔ a = b
  | [], [] => by simp [JVal.beqList]
  | a :: as, b :: bs => by
      simp [JVal.beqList, JVal.beq_iff a b, JVal.beqList_iff as bs]
  | [], _ :: _ => by simp [JVal.beqList]
  | _ :: _, [] => by simp [JVal.beqList]

theorem JVal.beqFields_iff :
    ∀ a b : List (String × JVal), JVal.beqFields a b = true ↔ a = b
  | [], [] => by simp [JVal.beqFields]
  | (k1, v1) :: as, (k2, v2) :: bs => by
      simp [JVal.beqFields, JVal.beq_iff v1 v2, JVal.beqFields_iff as bs,
        and_assoc]
  | [], _ :: _ => by simp [JVal.beqFields]
  | _ :: _, [] => by simp [JVal.beqFields]

end

instance : DecidableEq JVal := fun a b => decidable_of_iff _ (JVal.beq_iff a b)

/-- A record (a Python dict at top level): insertion-ordered association
list with unique keys. -/
abbrev Rec := List (String × JVal)

/-- `k in d` for a Python dict. -/
def hasKey (r : Rec) (k : String) : Bool :=
  r.any (fun p => p.1 == k)

/-- `d.get(k)` / `d[k]` as an `Option`. -/
def getKey? (r : Rec) (k : String) : Option JVal :=
  (r.find? (fun p => p.1 == k)).map (fun p => p.2)

/-- Remove a key (the removal part of `d.pop(k, default)`). -/
def eraseKey (r : Rec) (k : String) : Rec :=
  r.filter (fun p => p.1 != k)

/-- `d[k] = v`: replace the value in place when the key is present
(keeping its position in insertion order), append otherwise. -/
def setKey (r : Rec) (k : String) (v : JVal) : Rec :=
  if hasKey r k then r.map (fun p => if p.1 == k then (k, v) else p)
  else r ++ [(k, v)]

example : setKey [("a", JVal.num 1), ("b", JVal.num 2)] "a" JVal.null
    = [("a", JVal.null), ("b", JVal.num 2)] := by decide

example : getKey? [("a", JVal.num 1)] "b" = none := by decide

instance : BEq JVal := ⟨JVal.beq⟩

instance : LawfulBEq JVal where
  eq_of_beq h := (JVal.beq_iff _ _).mp h
  rfl := (JVal.beq_iff _ _).mpr rfl

/-! ## Declared column sets

Transcriptions of the `DEFAULT_*_COLUMNS` constants of
`dataframe_converter.py`.  The Python source builds them with
`"""..."""​.split("\n")` over a string that ends (and for the lists
family also begins) with a newline, so the split leaves empty-string
entries; those are kept here. -/

def DEFAULT_TWEET_COLUMNS : List String :=
  ["id", "conversation_id", "referenced_tweets.replied_to.id",
   "referenced_tweets.retweeted.id", "referenced_tweets.quoted.id",
   "edit_history_tweet_ids", "edit_controls.edits_remaining",
   "edit_controls.editable_until", "edit_controls.is_edit_eligible",
   "author_id", "in_reply_to_user_id", "retweeted_user_id", "quoted_user_id",
   "created_at", "text", "lang", "source", "public_metrics.like_count",
   "public_metrics.quote_count", "public_metrics.reply_count",
   "public_metrics.retweet_count", "reply_settings", "possibly_sensitive",
   "withheld.scope", "withheld.copyright", "withheld.country_codes",
   "entities.annotations", "entities.cashtags", "entities.hashtags",
   "entities.mentions", "entities.urls", "context_annotations",
   "attachments.media", "attachments.media_keys",
   "attachments.poll.duration_minutes", "attachments.poll.end_datetime",
   "attachments.poll.id", "attachments.poll.options",
   "attachments.poll.voting_status", "attachments.poll_ids",
   "author.id", "author.created_at", "author.username", "author.name",
   "author.description", "author.entities.description.cashtags",
   "author.entities.description.hashtags",
   "author.entities.description.mentions",
   "author.entities.description.urls", "author.entities.url.urls",
   "author.location", "author.pinned_tweet_id", "author.profile_image_url",
   "author.protected", "author.public_metrics.followers_count",
   "author.public_metrics.following_count",
   "author.public_metrics.listed_count",
   "author.public_metrics.tweet_count", "author.url", "author.verified",
   "author.withheld.scope", "author.withheld.copyright",
   "author.withheld.country_codes", "geo.coordinates.coordinates",
   "geo.coordinates.type", "geo.country", "geo.country_code",
   "geo.full_name", "geo.geo.bbox", "geo.geo.type", "geo.id", "geo.name",
   "geo.place_id", "geo.place_type", "matching_rules",
   "__twarc.retrieved_at", "__twarc.url", "__twarc.version", ""]

def DEFAULT_USER_COLUMNS : List String :=
  ["id", "created_at", "username", "name", "description",
   "entities.description.cashtags", "entities.description.hashtags",
   "entities.description.mentions", "entities.description.urls",
   "entities.url.urls", "location", "pinned_tweet_id",
   "profile_image_url", "protected", "public_metrics.followers_count",
   "public_metrics.following_count", "public_metrics.listed_count",
   "public_metrics.tweet_count", "url", "verified", "withheld.scope",
   "withheld.copyright", "withheld.country_codes",
   "__twarc.retrieved_at", "__twarc.url", "__twarc.version", ""]

def DEFAULT_COMPLIANCE_COLUMNS : List String :=
  ["id", "action", "created_at", "redacted_at", "reason", ""]

def DEFAULT_COUNTS_COLUMNS : List String :=
  ["start", "end", "tweet_count",
   "__twarc.retrieved_at", "__twarc.url", "__twarc.version", ""]

def DEFAULT_LISTS_COLUMNS : List String :=
  ["", "id", "owner_id", "created_at", "name", "description",
   "member_count", "follower_count", "private",
   "__twarc.retrieved_at", "__twarc.url", "__twarc.version", ""]

/-- `self.columns.extend(x for x in xs if x not in self.columns)`:
the generator re-checks the growing list, so it also deduplicates
within `xs` itself. -/
def extendUnique (cols xs : List String) : List String :=
  xs.foldl (fun acc x => if acc.contains x then acc else acc ++ [x]) cols

/-- The declared input column set built by `DataFrameConverter.__init__`
from the data type and the extra input columns. -/
def mkColumns (input_data_type : String) (extra : List String) : List String :=
  let c : List String := []
  let c := if input_data_type = "tweets" then extendUnique c DEFAULT_TWEET_COLUMNS else c
  let c := if input_data_type = "users" then extendUnique c DEFAULT_USER_COLUMNS else c
  let c := if input_data_type = "compliance" then extendUnique c DEFAULT_COMPLIANCE_COLUMNS else c
  let c := if input_data_type = "counts" then extendUnique c DEFAULT_COUNTS_COLUMNS else c
  let c := if input_data_type = "lists" then extendUnique c DEFAULT_LISTS_COLUMNS else c
  extendUnique c extra

/-- The configuration surface of `DataFrameConverter` / `CSVConverter`.
`extra_input_columns` stands for the comma-separated flag already split
(the empty flag is the empty list); `output_columns_arg` is `none` when
the flag is unset, in which case the input columns are used. -/
structure Config where
  input_data_type : String := "tweets"
  json_encode_all : Bool := false
  json_encode_text : Bool := false
  json_encode_lists : Bool := true
  inline_referenced_tweets : Bool := false
  merge_retweets : Bool := true
  allow_duplicates : Bool := false
  extra_input_columns : List String := []
  output_columns_arg : Option (List String) := none
  deriving Repr

def Config.columns (cfg : Config) : List String :=
  mkColumns cfg.input_data_type cfg.extra_input_columns

def Config.outputColumns (cfg : Config) : List String :=
  match cfg.output_columns_arg with
  | some l => l
  | none => cfg.columns

/-- The run counters (`self.counts`).  The static `input_columns` /
`output_columns` entries are the lengths of the declared column sets and
are not modelled as mutable state. -/
structure Counts where
  lines : Nat := 0
  tweets : Nat := 0
  referenced_tweets : Nat := 0
  retweets : Nat := 0
  quotes : Nat := 0
  replies : Nat := 0
  unavailable : Nat := 0
  non_objects : Nat := 0
  parse_errors : Nat := 0
  duplicates : Nat := 0
  rows : Nat := 0
  deriving Repr, DecidableEq

def counts0 : Counts := {}

/-! ## `DataFrameConverter._format_tweet` -/

/-- Python truthiness of a JSON value (`not tweet[k]`). -/
def isFalsy : JVal → Bool
  | .null => true
  | .str s => s == ""
  | .num n => n == 0
  | .bool b => !b
  | .arr l => l.isEmpty
  | .obj l => l.isEmpty

/-- The dict stored under a key, for values known to be objects
(the pipeline only reaches this on dict-shaped data). -/
def asObj : JVal → Rec
  | .obj r => r
  | _ => []

/-- `tweet["referenced_tweets"]` as a list of dicts. -/
def refsOf (t : Rec) : List Rec :=
  match getKey? t "referenced_tweets" with
  | some (.arr l) => l.map asObj
  | _ => []

/-- `t["type"] == ty` for a reference dict. -/
def isType (ty : String) (r : Rec) : Bool :=
  decide (getKey? r "type" = some (JVal.str ty))

/-- `r["type"]` as a string (references carry string-valued types). -/
def typeStrOf (r : Rec) : String :=
  match getKey? r "type" with
  | some (.str s) => s
  | _ => ""

/-- `tweet[k] = retweeted_tweet.pop(k, tweet.pop(k, None))`: the default
argument is evaluated eagerly, so the parent's value is always popped;
the child's value wins when present and is removed from the child; the
re-assignment appends the key at the end of the parent dict. -/
def inheritField (k : String) (pc : Rec × Rec) : Rec × Rec :=
  let parentDefault := (getKey? pc.1 k).getD JVal.null
  let parent := eraseKey pc.1 k
  let v := (getKey? pc.2 k).getD parentDefault
  let child := eraseKey pc.2 k
  (setKey parent k v, child)

/-- The retweet content merge: the parent inherits `text`, `entities`,
`attachments`, `context_annotations` and `public_metrics` from the
retweeted child, in source order, and each transferred field is popped
from the child. -/
def mergeRetweet (parent child : Rec) : Rec × Rec :=
  inheritField "public_metrics"
    (inheritField "context_annotations"
      (inheritField "attachments"
        (inheritField "entities"
          (inheritField "text" (parent, child)))))

/-- Replace the last element satisfying `p` (the Python merge mutates
`rts[-1]`, an alias of that element of `tweet["referenced_tweets"]`). -/
def replaceLastSat (p : Rec → Bool) (c : Rec) : List Rec → List Rec
  | [] => []
  | x :: xs =>
      if xs.any p then x :: replaceLastSat p c xs
      else if p x then c :: xs else x :: xs

def pointerPairs (refs : List Rec) : List (String × JVal) :=
  refs.map (fun r => (typeStrOf r, JVal.obj [("id", (getKey? r "id").getD JVal.null)]))

/-- `dict(ChainMap(*[{r["type"]: {"id": r["id"]}} for r in refs]))`:
`ChainMap` iterates its maps from the last one to the first, and a
lookup returns the value of the first map holding the key — so the
dict is built by folding `setKey` over the reversed pair list. -/
def pointerDict (refs : List Rec) : Rec :=
  (pointerPairs refs).reverse.foldl (fun d p => setKey d p.1 p.2) []

/-- `if k in tweet and not tweet[k]: tweet.pop(k, None)`. -/
def popIfEmpty (t : Rec) (k : String) : Rec :=
  match getKey? t k with
  | some v => if isFalsy v then eraseKey t k else t
  | none => t

/-- The tail of `_format_tweet`: remove the leftover `type` key and the
empty `attachments` / `entities` / `public_metrics` / `pinned_tweet`
objects. -/
def formatFinish (t0 : Rec) : Rec :=
  let t := eraseKey t0 "type"
  let t := popIfEmpty t "attachments"
  let t := popIfEmpty t "entities"
  let t := popIfEmpty t "public_metrics"
  popIfEmpty t "pinned_tweet"

/-- `DataFrameConverter._format_tweet`.  The record result and the
counter updates are computed side by side (the Python counter writes
never influence the record, so the interleaving is immaterial). -/
def formatTweet (cfg : Config) (st : Counts) (tweet0 : Rec) : Rec × Counts :=
  -- `tweet = copy.deepcopy(tweet)` (pure values need no copy), then
  -- `tweet.pop("pinned_tweet", None)`; `tweet.pop("in_reply_to_user", None)`
  let t := eraseKey (eraseKey tweet0 "pinned_tweet") "in_reply_to_user"
  if hasKey t "referenced_tweets" then
    let refs := refsOf t
    let replyTweet := (refs.filter (isType "replied_to")).getLast?
    let retweetedTweet := (refs.filter (isType "retweeted")).getLast?
    let quotedTweet := (refs.filter (isType "quoted")).getLast?
    let st1 := if hasKey t "in_reply_to_user_id" || replyTweet.isSome then
        { st with replies := st.replies + 1 } else st
    let st2 := match retweetedTweet with
      | some rt => if hasKey rt "author_id" then
          { st1 with retweets := st1.retweets + 1 } else st1
      | none => st1
    let st3 := match quotedTweet with
      | some qt => if hasKey qt "author_id" then
          { st2 with quotes := st2.quotes + 1 } else st2
      | none => st2
    let t1 := match retweetedTweet with
      | some rt => if hasKey rt "author_id" then
          setKey t "retweeted_user_id" ((getKey? rt "author_id").getD JVal.null)
        else t
      | none => t
    let t2 := match quotedTweet with
      | some qt => if hasKey qt "author_id" then
          setKey t1 "quoted_user_id" ((getKey? qt "author_id").getD JVal.null)
        else t1
      | none => t1
    let merged := match retweetedTweet with
      | some rt =>
          if cfg.merge_retweets then
            let pc := mergeRetweet t2 rt
            (pc.1, replaceLastSat (isType "retweeted") pc.2 refs)
          else (t2, refs)
      | none => (t2, refs)
    let t4 := setKey merged.1 "referenced_tweets" (JVal.obj (pointerDict merged.2))
    (formatFinish t4, st3)
  else
    (formatFinish (setKey t "referenced_tweets" (JVal.obj [])), st)

/-! ## `DataFrameConverter._inline_referenced_tweets` -/

/-- `referenced_tweet["__twarc"] = tweet["__twarc"] if "__twarc" in tweet
else None` — a dict assignment on the reference. -/
def injectTwarc (tw : JVal) (r : Rec) : Rec :=
  setKey r "__twarc" tw

/-- One iteration of the loop over `tweet["referenced_tweets"]`
(factored out so the loop can be reasoned about): count the reference,
inject the parent's `__twarc`, then either yield the formatted reference
(more than 3 keys) or count it `unavailable`. -/
def inlineStep (cfg : Config) (tw : JVal) (acc : List Rec × Counts) (r : Rec) :
    List Rec × Counts :=
  let stb := { acc.2 with referenced_tweets := acc.2.referenced_tweets + 1 }
  let ri := injectTwarc tw r
  if ri.length > 3 then
    let fc := formatTweet cfg stb ri
    (acc.1 ++ [fc.1], fc.2)
  else (acc.1, { stb with unavailable := stb.unavailable + 1 })

/-- `DataFrameConverter._inline_referenced_tweets`.  When inlining is on
and the record carries a `referenced_tweets` field, each reference goes
through `inlineStep` (the Python `__twarc` assignment mutates the element
inside the parent's list, so the parent keeps the injected references);
the (formatted) parent is yielded last.  Otherwise the formatted record
alone is yielded. -/
def inlineReferencedTweets (cfg : Config) (st : Counts) (tweet : Rec) :
    List Rec × Counts :=
  if hasKey tweet "referenced_tweets" && cfg.inline_referenced_tweets then
    let tw := (getKey? tweet "__twarc").getD JVal.null
    let refs := refsOf tweet
    let step := refs.foldl (inlineStep cfg tw) ([], st)
    let parent := setKey tweet "referenced_tweets"
      (JVal.arr ((refs.map (injectTwarc tw)).map JVal.obj))
    let fp := formatTweet cfg step.2 parent
    (step.1 ++ [fp.1], fp.2)
  else
    let fp := formatTweet cfg st tweet
    ([fp.1], fp.2)

/-! ## `DataFrameConverter._process_tweets` (identity deduplication) -/

/-- `DataFrameConverter._process_tweets`: count and deduplicate the
formatted rows.  `ids` is the run-wide `dataset_ids` seen-identity set,
kept as a list with set semantics (membership is what matters; adding an
element already present leaves it unchanged). -/
def processTweets (cfg : Config) (ids : List JVal) (st : Counts) :
    List Rec → List Rec × List JVal × Counts
  | [] => ([], ids, st)
  | tweet :: rest =>
    match getKey? tweet "id" with
    | some tid =>
        let st1 := { st with tweets := st.tweets + 1 }
        let st2 := if tid ∈ ids then
            { st1 with duplicates := st1.duplicates + 1 } else st1
        -- `if allow_duplicates: yield; else: if tweet_id not in dataset_ids: yield`
        let yielded : List Rec :=
          if cfg.allow_duplicates then [tweet]
          else if tid ∈ ids then [] else [tweet]
        -- `self.dataset_ids.add(tweet_id)` (afterward, in every case)
        let ids2 := if tid ∈ ids then ids else ids ++ [tid]
        let res := processTweets cfg ids2 st2 rest
        (yielded ++ res.1, res.2)
    | none =>
        if cfg.input_data_type == "counts" then
          let res := processTweets cfg ids { st with tweets := st.tweets + 1 } rest
          (tweet :: res.1, res.2)
        else
          processTweets cfg ids { st with non_objects := st.non_objects + 1 } rest

/-! ## Batch processing (`DataFrameConverter.process`) -/

/-- One flattened record through stages 3–4:
`self._process_tweets(self._inline_referenced_tweets(tweet))`, then the
whole batch chained (`itertools.chain.from_iterable`).  The lazy Python
generators interleave the counter writes of the two stages, but neither
stage reads a counter, and the seen-identity set is only touched by
`_process_tweets`, so the sequential composition has the same final
state. -/
def processRecords (cfg : Config) (ids : List JVal) (st : Counts) :
    List Rec → List Rec × List JVal × Counts
  | [] => ([], ids, st)
  | r :: rest =>
      let inl := inlineReferencedTweets cfg st r
      let pt := processTweets cfg ids inl.2 inl.1
      let res := processRecords cfg pt.2.1 pt.2.2 rest
      (pt.1 ++ res.1, res.2)

mutual

/-- `pd.json_normalize` on one value under dotted path `k`: nested dicts
are expanded recursively into dotted leaf keys (an empty dict
contributes no column); every other value is a single cell. -/
def flattenVal (k : String) : JVal → List (String × JVal)
  | .obj fields => flattenFields k fields
  | v => [(k, v)]

def flattenFields (k : String) : List (String × JVal) → List (String × JVal)
  | [] => []
  | (k2, v) :: rest => flattenVal (k ++ "." ++ k2) v ++ flattenFields k rest

end

/-- One record as one `json_normalize` row: dotted leaf keys and cells. -/
def flattenRec (r : Rec) : List (String × JVal) :=
  r.flatMap (fun p => flattenVal p.1 p.2)

/-- The column index of the normalized batch: the union of the keys
observed across the rows, in order of first appearance. -/
def observedCols (flat : List (List (String × JVal))) : List String :=
  (flat.flatMap (fun row => row.map Prod.fst)).foldl
    (fun acc k => if acc.contains k then acc else acc ++ [k]) []

/-- `set(_df.columns) - set(self.columns)`, as the observed columns not
among the declared input columns. -/
def driftCols (cfg : Config) (flat : List (List (String × JVal))) : List String :=
  (observedCols flat).filter (fun c => !cfg.columns.contains c)

/-- JSON string escaping of `json.dumps` for the character set exercised
here (backslash, quote and the common control characters). -/
def jsonEscapeChars : List Char → List Char
  | [] => []
  | c :: cs =>
    if c = '\\' then '\\' :: '\\' :: jsonEscapeChars cs
    else if c = '"' then '\\' :: '"' :: jsonEscapeChars cs
    else if c = '\n' then '\\' :: 'n' :: jsonEscapeChars cs
    else if c = '\r' then '\\' :: 'r' :: jsonEscapeChars cs
    else if c = '\t' then '\\' :: 't' :: jsonEscapeChars cs
    else c :: jsonEscapeChars cs

mutual

/-- `json.dumps` with its default separators, for ASCII content. -/
def jsonDumps : JVal → String
  | .str s => "\"" ++ String.mk (jsonEscapeChars s.data) ++ "\""
  | .num n => toString n
  | .bool b => if b then "true" else "false"
  | .null => "null"
  | .arr l => "[" ++ jsonDumpsList l ++ "]"
  | .obj l => "\x7b" ++ jsonDumpsFields l ++ "\x7d"

def jsonDumpsList : List JVal → String
  | [] => ""
  | [v] => jsonDumps v
  | v :: rest => jsonDumps v ++ ", " ++ jsonDumpsList rest

def jsonDumpsFields : List (String × JVal) → String
  | [] => ""
  | [(k, v)] => jsonDumps (.str k) ++ ": " ++ jsonDumps v
  | (k, v) :: rest =>
      jsonDumps (.str k) ++ ": " ++ jsonDumps v ++ ", " ++ jsonDumpsFields rest

end

/-- `x.replace("\r", "").replace("\n", "\\n")` — the mandatory newline
escape on string cells. -/
def escapeNL : List Char → List Char
  | [] => []
  | c :: cs =>
    if c = '\r' then escapeNL cs
    else if c = '\n' then '\\' :: 'n' :: escapeNL cs
    else c :: escapeNL cs

def escapeNewlines (s : String) : String :=
  String.mk (escapeNL s.data)

/-- `DataFrameConverter._process_dataframe`, per cell
(`applymap` with `na_action="ignore"` maps over present cells only).
`pd.api.types.is_list_like` holds for lists and dicts and fails for
scalars and strings. -/
def procCell (cfg : Config) (v : JVal) : JVal :=
  if cfg.json_encode_all then .str (jsonDumps v)
  else
    let v1 := if cfg.json_encode_text then
        match v with
        | .str s => .str (jsonDumps (.str s))
        | w => w
      else
        match v with
        | .str s => .str (escapeNewlines s)
        | w => w
    if cfg.json_encode_lists then
      match v1 with
      | .arr l => .str (jsonDumps (.arr l))
      | .obj l => .str (jsonDumps (.obj l))
      | w => w
    else v1

/-- A pandas DataFrame after `reindex(columns=self.columns)`: a fixed
column list and per-row cell lists aligned with it (`none` is NaN). -/
structure DF where
  cols : List String
  rows : List (List (Option JVal))
  deriving Repr, DecidableEq

/-- `_df.reindex(columns=cols)` on one normalized row. -/
def reindexRow (cols : List String) (flat : List (String × JVal)) :
    List (Option JVal) :=
  cols.map (fun c => (flat.find? (fun p => p.1 == c)).map Prod.snd)

/-- An envelope: one parsed input line.  The external `ensure_flattened`
collaborator is out of the repository; per the spec's collaborator
contract it returns one flat record or an iterable of flat records. -/
inductive Envelope where
  | one (r : Rec)
  | many (rs : List Rec)
  deriving Repr, DecidableEq

/-- Modelled from the spec: the external flattening collaborator
(`ensure_flattened` from the twarc package, not part of this
repository) — "given one raw envelope object, returns either one flat
record or an iterable of flat records". -/
def ensureFlattened : Envelope → List Rec
  | .one r => [r]
  | .many rs => rs

/-- `DataFrameConverter.process` on one batch: flatten, inline, dedup,
normalize, check for schema drift (discarding the whole batch and
counting its rows as `parse_errors` when undeclared columns appear),
else reindex to the declared input columns and apply the cell
transforms. -/
def converterProcess (cfg : Config) (ids : List JVal) (st : Counts)
    (objects : List Envelope) : DF × List JVal × Counts :=
  let recs := objects.flatMap ensureFlattened
  let pr := processRecords cfg ids st recs
  let flat := pr.1.map flattenRec
  if (driftCols cfg flat).isEmpty then
    let rows := flat.map (fun row =>
      (reindexRow cfg.columns row).map (Option.map (procCell cfg)))
    (⟨cfg.columns, rows⟩, pr.2.1, pr.2.2)
  else
    (⟨cfg.columns, []⟩, pr.2.1,
      { pr.2.2 with parse_errors := pr.2.2.parse_errors + flat.length })

/-! ## `CSVConverter` (csv_writer.py) -/

/-- One line of the output CSV file: the header or one data row
(cells in declared output-column order). -/
inductive OutLine where
  | header (cols : List String)
  | row (cells : List (Option JVal))
  deriving Repr, DecidableEq

/-- `to_csv(columns=output_columns)`: select the output columns from the
frame's columns. -/
def selectRow (dfcols outcols : List String) (cells : List (Option JVal)) :
    List (Option JVal) :=
  outcols.map (fun c =>
    match dfcols.findIdx? (fun d => d == c) with
    | some i => cells.getD i none
    | none => none)

/-- `CSVConverter._write_output`: accumulate `rows`, then write with
mode `"w"` and a header for the first batch (truncating the file) and
mode `"a+"` without a header afterwards.  `to_csv(header=True)` on a
zero-row frame still writes the header line. -/
def writeOutput (outcols : List String) (df : DF) (firstBatch : Bool)
    (file : List OutLine) (st : Counts) : List OutLine × Counts :=
  let st := { st with rows := st.rows + df.rows.length }
  let rowLines := df.rows.map (fun cells =>
    OutLine.row (selectRow df.cols outcols cells))
  if firstBatch then (OutLine.header outcols :: rowLines, st)
  else (file ++ rowLines, st)

/-- One raw input line: blank, malformed (`json.loads` raises), or a
parsed JSON envelope. -/
inductive Line where
  | blank
  | malformed
  | parsed (e : Envelope)

/-- `CSVConverter._read_lines`: count every line, skip blank lines, on a
parse failure count a `parse_error` and continue, otherwise yield the
parsed envelope. -/
def readLines (st : Counts) : List Line → List Envelope × Counts
  | [] => ([], st)
  | l :: rest =>
    let st := { st with lines := st.lines + 1 }
    match l with
    | .blank => readLines st rest
    | .malformed => readLines { st with parse_errors := st.parse_errors + 1 } rest
    | .parsed e =>
        let res := readLines st rest
        (e :: res.1, res.2)

/-- Structural worker for `chunksSucc`: the fuel is an upper bound on
the list length, so the fuel-exhausted branch is never reached. -/
def chunksGo (n : Nat) : Nat → List α → List (List α)
  | _, [] => []
  | 0, _ :: _ => []
  | fuel + 1, a :: l => (a :: l.take n) :: chunksGo n fuel (l.drop n)

/-- `more_itertools.ichunked` with chunk size `n + 1` (the batch size is
a positive integer). -/
def chunksSucc (n : Nat) (l : List α) : List (List α) :=
  chunksGo n l.length l

theorem chunksGo_fuel (n : Nat) :
    ∀ (fuel : Nat) (l : List α) (fuel2 : Nat),
    l.length ≤ fuel → l.length ≤ fuel2 →
    chunksGo n fuel l = chunksGo n fuel2 l := by
  intro fuel
  induction fuel with
  | zero =>
    intro l fuel2 h1 _
    cases l with
    | nil => cases fuel2 <;> rfl
    | cons a t => simp at h1
  | succ f ih =>
    intro l fuel2 h1 h2
    cases l with
    | nil => cases fuel2 <;> rfl
    | cons a t =>
      cases fuel2 with
      | zero => simp at h2
      | succ f2 =>
        simp only [chunksGo]
        rw [ih (t.drop n) f2 (by simp at h1 ⊢; omega) (by simp at h2 ⊢; omega)]

theorem chunksSucc_cons (n : Nat) (a : α) (l : List α) :
    chunksSucc n (a :: l) = (a :: l.take n) :: chunksSucc n (l.drop n) := by
  unfold chunksSucc
  simp only [List.length_cons, chunksGo]
  rw [chunksGo_fuel n l.length (l.drop n) (l.drop n).length (by simp)
    (le_refl _)]

/-- The batch loop of `CSVConverter.process`: the `first_batch` flag is
true for the first batch only, discarded or not. -/
def runBatches (cfg : Config) (file : List OutLine) (ids : List JVal)
    (st : Counts) (firstBatch : Bool) :
    List (List Envelope) → List OutLine × List JVal × Counts
  | [] => (file, ids, st)
  | b :: bs =>
      let cp := converterProcess cfg ids st b
      let w := writeOutput cfg.outputColumns cp.1 firstBatch file cp.2.2
      runBatches cfg w.1 cp.2.1 w.2 false bs

/-- `CSVConverter.process` over a whole input: read and parse the lines,
chunk the parsed envelopes into batches of size `batchSizePred + 1`, and
convert and write each batch in turn.  (The Python generators interleave
the reading with the writing; the final file and counters are those of
this sequential composition.) -/
def runCSV (cfg : Config) (batchSizePred : Nat) (input : List Line) :
    List OutLine × List JVal × Counts :=
  let rl := readLines counts0 input
  runBatches cfg [] [] rl.2 true (chunksSucc batchSizePred rl.1)

/-! ## Association-list lemmas (dict operations) -/

theorem hasKey_cons (p : String × JVal) (r : Rec) (k : String) :
    hasKey (p :: r) k = (p.1 == k || hasKey r k) := by
  simp [hasKey]

theorem getKey?_cons (p : String × JVal) (r : Rec) (k : String) :
    getKey? (p :: r) k = if p.1 == k then some p.2 else getKey? r k := by
  by_cases h : p.1 = k
  · have hb : (p.1 == k) = true := by simp [h]
    simp [getKey?, List.find?_cons, hb]
  · have hb : (p.1 == k) = false := by simp [h]
    simp [getKey?, List.find?_cons, hb]

theorem eraseKey_cons (p : String × JVal) (r : Rec) (k : String) :
    eraseKey (p :: r) k = if p.1 == k then eraseKey r k else p :: eraseKey r k := by
  by_cases h : p.1 = k <;> simp [eraseKey, List.filter_cons, h]

theorem hasKey_iff_getKey? (r : Rec) (k : String) :
    hasKey r k = (getKey? r k).isSome := by
  induction r with
  | nil => rfl
  | cons p rest ih =>
    rw [hasKey_cons, getKey?_cons]
    by_cases h : p.1 = k <;> simp [h, ih]

theorem getKey?_eq_none_of_hasKey_eq_false {r : Rec} {k : String}
    (h : hasKey r k = false) : getKey? r k = none := by
  rw [hasKey_iff_getKey?] at h
  exact Option.not_isSome_iff_eq_none.mp (by simp [h])

theorem getKey?_replaceMap (r : Rec) (k k' : String) (v : JVal) :
    getKey? (r.map (fun p => if p.1 == k then (k, v) else p)) k' =
      if k = k' ∧ hasKey r k then some v else getKey? r k' := by
  induction r with
  | nil => simp [getKey?, hasKey]
  | cons p rest ih =>
    rw [List.map_cons]
    by_cases hp : p.1 = k
    · by_cases hkk : k = k'
      · subst hkk
        simp [getKey?_cons, hasKey_cons, hp]
      · have hpk : p.1 ≠ k' := by rw [hp]; exact hkk
        simp [getKey?_cons, hasKey_cons, hp, hkk, hpk] at ih ⊢
        exact ih
    · by_cases hkk : k = k'
      · subst hkk
        by_cases hres : hasKey rest k <;>
          (simp [getKey?_cons, hasKey_cons, hp, hres] at ih ⊢; exact ih)
      · simp [getKey?_cons, hasKey_cons, hp, hkk] at ih ⊢
        by_cases hpk : p.1 = k' <;> simp [hpk, ih]

theorem getKey?_appendSingleton (r : Rec) (k k' : String) (v : JVal) :
    getKey? (r ++ [(k, v)]) k' =
      if hasKey r k' then getKey? r k'
      else if k = k' then some v else none := by
  induction r with
  | nil =>
    by_cases hkk : k = k' <;> simp [getKey?_cons, getKey?, hasKey, hkk]
  | cons p rest ih =>
    by_cases hp : p.1 = k'
    · simp [getKey?_cons, hasKey_cons, hp]
    · by_cases hres : hasKey rest k' <;>
        simp [getKey?_cons, hasKey_cons, hp, hres, ih]

theorem getKey?_setKey (r : Rec) (k : String) (v : JVal) (k' : String) :
    getKey? (setKey r k v) k' = if k = k' then some v else getKey? r k' := by
  unfold setKey
  by_cases hr : hasKey r k
  · rw [if_pos hr, getKey?_replaceMap]
    by_cases hkk : k = k'
    · rw [if_pos ⟨hkk, hr⟩, if_pos hkk]
    · rw [if_neg (fun h => hkk h.1), if_neg hkk]
  · rw [if_neg hr, getKey?_appendSingleton]
    by_cases hkk : k = k'
    · subst hkk
      rw [if_neg (by simp [Bool.of_not_eq_true hr]), if_pos rfl, if_pos rfl]
    · by_cases hk' : hasKey r k'
      · rw [if_pos hk', if_neg hkk]
      · rw [if_neg hk', if_neg hkk, if_neg hkk,
          getKey?_eq_none_of_hasKey_eq_false (Bool.of_not_eq_true hk')]

theorem hasKey_setKey (r : Rec) (k : String) (v : JVal) (k' : String) :
    hasKey (setKey r k v) k' = (k == k' || hasKey r k') := by
  rw [hasKey_iff_getKey?, getKey?_setKey, hasKey_iff_getKey?]
  by_cases hkk : k = k' <;> simp [hkk]

theorem length_setKey (r : Rec) (k : String) (v : JVal) :
    (setKey r k v).length = if hasKey r k then r.length else r.length + 1 := by
  unfold setKey
  by_cases h : hasKey r k <;> simp [h]

theorem getKey?_eraseKey (r : Rec) (k k' : String) :
    getKey? (eraseKey r k) k' = if k = k' then none else getKey? r k' := by
  induction r with
  | nil => by_cases hkk : k = k' <;> simp [eraseKey, getKey?, hkk]
  | cons p rest ih =>
    rw [eraseKey_cons]
    by_cases hp : p.1 = k
    · by_cases hkk : k = k'
      · subst hkk
        simp [hp, ih]
      · have hpk : p.1 ≠ k' := by rw [hp]; exact hkk
        simp [getKey?_cons, hp, hkk, hpk, ih]
    · by_cases hkk : k = k'
      · subst hkk
        simp [getKey?_cons, hp, ih]
      · have hkk2 : k' ≠ k := fun h => hkk h.symm
        by_cases hpk : p.1 = k' <;> simp [getKey?_cons, hp, hkk, hkk2, hpk, ih]

theorem hasKey_eraseKey (r : Rec) (k k' : String) :
    hasKey (eraseKey r k) k' = if k = k' then false else hasKey r k' := by
  rw [hasKey_iff_getKey?, getKey?_eraseKey, hasKey_iff_getKey?]
  by_cases hkk : k = k' <;> simp [hkk]

theorem getKey?_popIfEmpty (t : Rec) (k k' : String) :
    getKey? (popIfEmpty t k) k' =
      if k = k' then
        (match getKey? t k with
          | some v => if isFalsy v then none else some v
          | none => none)
      else getKey? t k' := by
  unfold popIfEmpty
  cases hg : getKey? t k with
  | none =>
    dsimp only
    by_cases hkk : k = k'
    · subst hkk
      rw [if_pos rfl, hg]
    · rw [if_neg hkk]
  | some v =>
    dsimp only
    by_cases hf : isFalsy v
    · rw [if_pos hf, getKey?_eraseKey]
      by_cases hkk : k = k'
      · rw [if_pos hkk, if_pos hkk, if_pos hf]
      · rw [if_neg hkk, if_neg hkk]
    · rw [if_neg hf]
      by_cases hkk : k = k'
      · subst hkk
        rw [if_pos rfl, hg, if_neg hf]
      · rw [if_neg hkk]

theorem hasKey_popIfEmpty_ne (t : Rec) {k k' : String} (h : k ≠ k') :
    hasKey (popIfEmpty t k) k' = hasKey t k' := by
  rw [hasKey_iff_getKey?, hasKey_iff_getKey?, getKey?_popIfEmpty, if_neg h]

theorem getKey?_popIfEmpty_ne (t : Rec) {k k' : String} (h : k ≠ k') :
    getKey? (popIfEmpty t k) k' = getKey? t k' := by
  rw [getKey?_popIfEmpty, if_neg h]

/-! ## `formatFinish` lemmas -/

theorem hasKey_popIfEmpty_false {t : Rec} {k : String} (k' : String)
    (h : hasKey t k = false) : hasKey (popIfEmpty t k') k = false := by
  unfold popIfEmpty
  cases hg : getKey? t k' with
  | none => exact h
  | some v =>
    dsimp only
    by_cases hf : isFalsy v
    · rw [if_pos hf, hasKey_eraseKey]
      by_cases hkk : k' = k <;> simp [hkk, h]
    · rw [if_neg hf]; exact h

theorem getKey?_formatFinish_ne (t : Rec) {k : String}
    (h1 : k ≠ "type") (h2 : k ≠ "attachments") (h3 : k ≠ "entities")
    (h4 : k ≠ "public_metrics") (h5 : k ≠ "pinned_tweet") :
    getKey? (formatFinish t) k = getKey? t k := by
  unfold formatFinish
  rw [getKey?_popIfEmpty_ne _ (Ne.symm h5), getKey?_popIfEmpty_ne _ (Ne.symm h4),
    getKey?_popIfEmpty_ne _ (Ne.symm h3), getKey?_popIfEmpty_ne _ (Ne.symm h2),
    getKey?_eraseKey, if_neg (Ne.symm h1)]

theorem hasKey_formatFinish_ne (t : Rec) {k : String}
    (h1 : k ≠ "type") (h2 : k ≠ "attachments") (h3 : k ≠ "entities")
    (h4 : k ≠ "public_metrics") (h5 : k ≠ "pinned_tweet") :
    hasKey (formatFinish t) k = hasKey t k := by
  rw [hasKey_iff_getKey?, hasKey_iff_getKey?,
    getKey?_formatFinish_ne t h1 h2 h3 h4 h5]

theorem getKey?_formatFinish_refs (X : Rec) (v : JVal) :
    getKey? (formatFinish (setKey X "referenced_tweets" v)) "referenced_tweets"
      = some v := by
  rw [getKey?_formatFinish_ne _ (by decide) (by decide) (by decide) (by decide)
    (by decide), getKey?_setKey, if_pos rfl]

theorem hasKey_formatFinish_refs (X : Rec) (v : JVal) :
    hasKey (formatFinish (setKey X "referenced_tweets" v)) "referenced_tweets"
      = true := by
  rw [hasKey_iff_getKey?, getKey?_formatFinish_refs]
  rfl

theorem hasKey_formatFinish_type (X : Rec) :
    hasKey (formatFinish X) "type" = false := by
  unfold formatFinish
  apply hasKey_popIfEmpty_false
  apply hasKey_popIfEmpty_false
  apply hasKey_popIfEmpty_false
  apply hasKey_popIfEmpty_false
  rw [hasKey_eraseKey, if_pos rfl]

/-! ## Claim C9 -/

/-- C9: every record emitted by `_format_tweet` contains a
`referenced_tweets` key; when the input record has no `referenced_tweets`
field at all, the output's `referenced_tweets` field is the empty
mapping; and any top-level `type` key is always removed. -/
theorem formatTweet_refs_present_type_removed (cfg : Config) (st : Counts)
    (tweet : Rec) :
    hasKey (formatTweet cfg st tweet).1 "referenced_tweets" = true ∧
    hasKey (formatTweet cfg st tweet).1 "type" = false ∧
    (hasKey tweet "referenced_tweets" = false →
      getKey? (formatTweet cfg st tweet).1 "referenced_tweets"
        = some (JVal.obj [])) := by
  refine ⟨?_, ?_, ?_⟩
  · simp only [formatTweet]
    split
    · exact hasKey_formatFinish_refs _ _
    · exact hasKey_formatFinish_refs _ _
  · simp only [formatTweet]
    split
    · exact hasKey_formatFinish_type _
    · exact hasKey_formatFinish_type _
  · intro h
    have hE : hasKey (eraseKey (eraseKey tweet "pinned_tweet") "in_reply_to_user")
        "referenced_tweets" = false := by
      rw [hasKey_eraseKey, if_neg (by decide), hasKey_eraseKey,
        if_neg (by decide)]
      exact h
    simp only [formatTweet, hE]
    exact getKey?_formatFinish_refs _ _

/-- Closed instance of `formatTweet_refs_present_type_removed` at a
concrete record without `referenced_tweets` and with a `type` key. -/
theorem formatTweet_refs_present_type_removed_witness :
    hasKey (formatTweet {} counts0 [("id", JVal.str "1"), ("type", JVal.str "x")]).1
        "referenced_tweets" = true ∧
    hasKey (formatTweet {} counts0 [("id", JVal.str "1"), ("type", JVal.str "x")]).1
        "type" = false ∧
    getKey? (formatTweet {} counts0 [("id", JVal.str "1"), ("type", JVal.str "x")]).1
        "referenced_tweets" = some (JVal.obj []) := by
  have h := formatTweet_refs_present_type_removed {} counts0
    [("id", JVal.str "1"), ("type", JVal.str "x")]
  exact ⟨h.1, h.2.1, h.2.2 (by decide)⟩

/-! ## Claim C5 -/

/-- C5 (counterexample): with inlining disabled, the stage does NOT pass
the record through unchanged — on the record `{"id": "1"}` the single
yielded record has gained a `referenced_tweets` field (set to the empty
mapping by the formatting step), so it differs from the input. -/
theorem inline_disabled_not_unchanged :
    (inlineReferencedTweets {} counts0 [("id", JVal.str "1")]).1
      ≠ [[("id", JVal.str "1")]] := by
  decide

/-- C5 (amended): with inlining disabled the stage yields exactly one
record — the input record as transformed by the shared formatting step
(`_format_tweet`); no reference is expanded, but the record is not
byte-identical to the input. -/
theorem inline_disabled_formats_only (cfg : Config) (st : Counts) (tweet : Rec)
    (h : cfg.inline_referenced_tweets = false) :
    inlineReferencedTweets cfg st tweet
      = ([(formatTweet cfg st tweet).1], (formatTweet cfg st tweet).2) := by
  simp [inlineReferencedTweets, h]

/-- Closed instance of `inline_disabled_formats_only`. -/
theorem inline_disabled_formats_only_witness :
    inlineReferencedTweets {} counts0 [("id", JVal.str "1")]
      = ([(formatTweet {} counts0 [("id", JVal.str "1")]).1],
         (formatTweet {} counts0 [("id", JVal.str "1")]).2) :=
  inline_disabled_formats_only {} counts0 [("id", JVal.str "1")] rfl

/-! ## Claim C1 -/

/-- The deduplication rules as the specification words them: for an
identity-bearing record, always increment the seen count; if the
identity is already in the Seen-Identity Set, increment `duplicates`;
yield the record iff `allow_duplicates` is true OR the identity is new;
afterward add the identity to the Seen-Identity Set in every case.
Identity-less records pass through (and are counted) only for the
identity-less `counts` schema, and are otherwise counted as non-entities
and dropped. -/
def dedupSpec (cfg : Config) (ids : List JVal) (st : Counts) :
    List Rec → List Rec × List JVal × Counts
  | [] => ([], ids, st)
  | r :: rest =>
    match getKey? r "id" with
    | some v =>
        let st1 := { st with tweets := st.tweets + 1 }
        let st2 := if v ∈ ids then
            { st1 with duplicates := st1.duplicates + 1 } else st1
        let keep : Bool := cfg.allow_duplicates || decide (v ∉ ids)
        let ids2 := if v ∈ ids then ids else ids ++ [v]
        let res := dedupSpec cfg ids2 st2 rest
        ((if keep then [r] else []) ++ res.1, res.2)
    | none =>
        if cfg.input_data_type == "counts" then
          let res := dedupSpec cfg ids { st with tweets := st.tweets + 1 } rest
          (r :: res.1, res.2)
        else
          dedupSpec cfg ids { st with non_objects := st.non_objects + 1 } rest

theorem processTweets_eq_dedupSpec (cfg : Config) (rows : List Rec) :
    ∀ (ids : List JVal) (st : Counts),
      processTweets cfg ids st rows = dedupSpec cfg ids st rows := by
  induction rows with
  | nil => intro ids st; rfl
  | cons r rest ih =>
    intro ids st
    simp only [processTweets, dedupSpec]
    cases hg : getKey? r "id" with
    | some tid =>
      dsimp only
      rw [ih]
      have hy : (if cfg.allow_duplicates then [r]
            else if tid ∈ ids then [] else [r])
          = (if (cfg.allow_duplicates || decide (tid ∉ ids)) then [r]
            else ([] : List Rec)) := by
        by_cases hal : cfg.allow_duplicates <;> by_cases hm : tid ∈ ids <;>
          simp [hal, hm]
      rw [hy]
    | none =>
      dsimp only
      by_cases hc : cfg.input_data_type == "counts" <;> simp [hc, ih]

theorem processTweets_filter_key (cfg : Config)
    (hdup : cfg.allow_duplicates = false) (v : JVal) (rows : List Rec) :
    ∀ (ids : List JVal) (st : Counts),
    (processTweets cfg ids st rows).1.filter
        (fun r => decide (getKey? r "id" = some v)) =
      if v ∈ ids then []
      else (rows.filter (fun r => decide (getKey? r "id" = some v))).take 1 := by
  induction rows with
  | nil =>
    intro ids st
    by_cases h : v ∈ ids <;> simp [processTweets, h]
  | cons r rest ih =>
    intro ids st
    simp only [processTweets]
    cases hg : getKey? r "id" with
    | some tid =>
      dsimp only
      rw [hdup]
      by_cases hv : v = tid
      · subst hv
        have hb : decide (getKey? r "id" = some v) = true := by simp [hg]
        by_cases hm : v ∈ ids
        · simp only [if_pos hm, Bool.false_eq_true, if_false, List.nil_append]
          rw [ih ids _]
          simp [hm]
        · simp only [if_neg hm, Bool.false_eq_true, if_false,
            List.cons_append, List.nil_append, List.filter_cons, hb, if_true]
          rw [ih (ids ++ [v]) _, if_pos (by simp : v ∈ ids ++ [v])]
          simp [hm]
      · have hb : decide (getKey? r "id" = some v) = false := by
          simp [hg]
          exact fun h => hv h.symm
        have hmm : ∀ ids2 : List JVal, (v ∈ ids2 ++ [tid]) ↔ v ∈ ids2 := by
          intro ids2
          simp [hv]
        by_cases hm : tid ∈ ids
        · simp only [if_pos hm, Bool.false_eq_true, if_false, List.nil_append]
          rw [ih ids _]
          by_cases hvi : v ∈ ids <;>
            simp [hvi, List.filter_cons, hb]
        · simp only [if_neg hm, Bool.false_eq_true, if_false,
            List.cons_append, List.nil_append, List.filter_cons, hb,
            Bool.false_eq_true, if_false]
          rw [ih (ids ++ [tid]) _]
          by_cases hvi : v ∈ ids <;>
            simp [hvi, hmm ids, List.filter_cons, hb]
    | none =>
      dsimp only
      have hb : decide (getKey? r "id" = some v) = false := by simp [hg]
      by_cases hc : cfg.input_data_type == "counts"
      · simp only [if_pos hc]
        have := ih ids ({ st with tweets := st.tweets + 1 })
        by_cases hvi : v ∈ ids <;>
          simp [hvi, List.filter_cons, hb, this]
      · simp only [if_neg hc]
        have := ih ids ({ st with non_objects := st.non_objects + 1 })
        by_cases hvi : v ∈ ids <;>
          simp [hvi, List.filter_cons, hb, this]

/-- C1: the deduplicating stage implements the spec's per-record rules
(seen count, `duplicates` count, "yield iff `allow_duplicates` or the
identity is new", identity added to the Seen-Identity Set afterward in
every case — `dedupSpec` states those rules verbatim), and over a whole
run started with an empty Seen-Identity Set and `allow_duplicates`
false, the output rows carrying any given identity are exactly the
first-occurring input row with that identity: at most one row per
distinct identity, the first in input order. -/
theorem processTweets_dedup_claims (cfg : Config) (ids : List JVal)
    (st : Counts) (rows : List Rec) (v : JVal)
    (hdup : cfg.allow_duplicates = false) :
    processTweets cfg ids st rows = dedupSpec cfg ids st rows ∧
    (processTweets cfg [] st rows).1.filter
        (fun r => decide (getKey? r "id" = some v))
      = (rows.filter (fun r => decide (getKey? r "id" = some v))).take 1 ∧
    ((processTweets cfg [] st rows).1.filter
        (fun r => decide (getKey? r "id" = some v))).length ≤ 1 := by
  have hf := processTweets_filter_key cfg hdup v rows [] st
  simp only [List.not_mem_nil, if_false] at hf
  refine ⟨processTweets_eq_dedupSpec cfg rows ids st, hf, ?_⟩
  rw [hf]
  exact le_trans (List.length_take_le 1 _) (le_refl 1)

/-- Closed instance of `processTweets_dedup_claims`: three rows, two of
them sharing the identity `"1"`; only the first of those is kept. -/
theorem processTweets_dedup_claims_witness :
    processTweets {} [] counts0
        [[("id", JVal.str "1"), ("a", JVal.num 1)],
         [("id", JVal.str "1"), ("a", JVal.num 2)],
         [("id", JVal.str "2")]]
      = dedupSpec {} [] counts0
        [[("id", JVal.str "1"), ("a", JVal.num 1)],
         [("id", JVal.str "1"), ("a", JVal.num 2)],
         [("id", JVal.str "2")]] ∧
    (processTweets {} [] counts0
        [[("id", JVal.str "1"), ("a", JVal.num 1)],
         [("id", JVal.str "1"), ("a", JVal.num 2)],
         [("id", JVal.str "2")]]).1.filter
        (fun r => decide (getKey? r "id" = some (JVal.str "1")))
      = ([[("id", JVal.str "1"), ("a", JVal.num 1)],
          [("id", JVal.str "1"), ("a", JVal.num 2)],
          [("id", JVal.str "2")]].filter
          (fun r => decide (getKey? r "id" = some (JVal.str "1")))).take 1 ∧
    ((processTweets {} [] counts0
        [[("id", JVal.str "1"), ("a", JVal.num 1)],
         [("id", JVal.str "1"), ("a", JVal.num 2)],
         [("id", JVal.str "2")]]).1.filter
        (fun r => decide (getKey? r "id" = some (JVal.str "1")))).length ≤ 1 :=
  processTweets_dedup_claims {} [] counts0
    [[("id", JVal.str "1"), ("a", JVal.num 1)],
     [("id", JVal.str "1"), ("a", JVal.num 2)],
     [("id", JVal.str "2")]] (JVal.str "1") rfl

/-! ## `formatTweet` / `inlineStep` structural lemmas -/

/-- The record produced by `_format_tweet` does not depend on the
counter state. -/
theorem formatTweet_fst_st (cfg : Config) (st st' : Counts) (t : Rec) :
    (formatTweet cfg st t).1 = (formatTweet cfg st' t).1 := by
  simp only [formatTweet]
  split <;> rfl

/-- `_format_tweet` only ever increments `replies`, `retweets` and
`quotes`; every other counter passes through unchanged. -/
theorem formatTweet_counts_preserved (cfg : Config) (st : Counts) (t : Rec) :
    (formatTweet cfg st t).2.lines = st.lines ∧
    (formatTweet cfg st t).2.tweets = st.tweets ∧
    (formatTweet cfg st t).2.referenced_tweets = st.referenced_tweets ∧
    (formatTweet cfg st t).2.unavailable = st.unavailable ∧
    (formatTweet cfg st t).2.non_objects = st.non_objects ∧
    (formatTweet cfg st t).2.parse_errors = st.parse_errors ∧
    (formatTweet cfg st t).2.duplicates = st.duplicates ∧
    (formatTweet cfg st t).2.rows = st.rows := by
  simp only [formatTweet]
  split
  · dsimp only
    (repeat' split) <;> simp
  · simp

/-- The child rows produced by the reference loop: the references, each
given the parent's `__twarc`, that then have more than 3 keys, formatted
in order. -/
def inlineChildren (cfg : Config) (tw : JVal) (refs : List Rec) : List Rec :=
  ((refs.map (injectTwarc tw)).filter (fun r => decide (r.length > 3))).map
    (fun r => (formatTweet cfg counts0 r).1)

theorem inline_fold_rows (cfg : Config) (tw : JVal) (refs : List Rec) :
    ∀ (acc : List Rec) (st : Counts),
    (refs.foldl (inlineStep cfg tw) (acc, st)).1
      = acc ++ inlineChildren cfg tw refs := by
  induction refs with
  | nil => intro acc st; simp [inlineChildren]
  | cons r rest ih =>
    intro acc st
    rw [List.foldl_cons]
    by_cases h : (injectTwarc tw r).length > 3
    · have hstep : inlineStep cfg tw (acc, st) r
          = (acc ++ [(formatTweet cfg
                { st with referenced_tweets := st.referenced_tweets + 1 }
                (injectTwarc tw r)).1],
             (formatTweet cfg
                { st with referenced_tweets := st.referenced_tweets + 1 }
                (injectTwarc tw r)).2) := by
        simp [inlineStep, h]
      rw [hstep, ih]
      rw [formatTweet_fst_st cfg _ counts0]
      simp [inlineChildren, List.filter_cons, h]
    · have hstep : inlineStep cfg tw (acc, st) r
          = (acc, { st with
              referenced_tweets := st.referenced_tweets + 1,
              unavailable := st.unavailable + 1 }) := by
        simp [inlineStep, h]
      rw [hstep, ih]
      simp [inlineChildren, List.filter_cons, h]

theorem inline_fold_unavailable (cfg : Config) (tw : JVal) (refs : List Rec) :
    ∀ (acc : List Rec) (st : Counts),
    (refs.foldl (inlineStep cfg tw) (acc, st)).2.unavailable
      = st.unavailable
        + (refs.map (injectTwarc tw)).countP (fun r => !decide (r.length > 3)) := by
  induction refs with
  | nil => intro acc st; simp
  | cons r rest ih =>
    intro acc st
    rw [List.foldl_cons]
    by_cases h : (injectTwarc tw r).length > 3
    · have hstep : inlineStep cfg tw (acc, st) r
          = (acc ++ [(formatTweet cfg
                { st with referenced_tweets := st.referenced_tweets + 1 }
                (injectTwarc tw r)).1],
             (formatTweet cfg
                { st with referenced_tweets := st.referenced_tweets + 1 }
                (injectTwarc tw r)).2) := by
        simp [inlineStep, h]
      rw [hstep, ih]
      have hp := (formatTweet_counts_preserved cfg
        { st with referenced_tweets := st.referenced_tweets + 1 }
        (injectTwarc tw r)).2.2.2.1
      rw [hp]
      simp [List.countP_cons, h]
    · have hstep : inlineStep cfg tw (acc, st) r
          = (acc, { st with
              referenced_tweets := st.referenced_tweets + 1,
              unavailable := st.unavailable + 1 }) := by
        simp [inlineStep, h]
      rw [hstep, ih]
      simp [List.countP_cons, h]
      omega

theorem inline_fold_referenced (cfg : Config) (tw : JVal) (refs : List Rec) :
    ∀ (acc : List Rec) (st : Counts),
    (refs.foldl (inlineStep cfg tw) (acc, st)).2.referenced_tweets
      = st.referenced_tweets + refs.length := by
  induction refs with
  | nil => intro acc st; simp
  | cons r rest ih =>
    intro acc st
    rw [List.foldl_cons]
    by_cases h : (injectTwarc tw r).length > 3
    · have hstep : inlineStep cfg tw (acc, st) r
          = (acc ++ [(formatTweet cfg
                { st with referenced_tweets := st.referenced_tweets + 1 }
                (injectTwarc tw r)).1],
             (formatTweet cfg
                { st with referenced_tweets := st.referenced_tweets + 1 }
                (injectTwarc tw r)).2) := by
        simp [inlineStep, h]
      rw [hstep, ih]
      have hp := (formatTweet_counts_preserved cfg
        { st with referenced_tweets := st.referenced_tweets + 1 }
        (injectTwarc tw r)).2.2.1
      rw [hp]
      simp [Nat.add_comm, Nat.add_assoc, Nat.add_left_comm]
    · have hstep : inlineStep cfg tw (acc, st) r
          = (acc, { st with
              referenced_tweets := st.referenced_tweets + 1,
              unavailable := st.unavailable + 1 }) := by
        simp [inlineStep, h]
      rw [hstep, ih]
      simp [Nat.add_comm, Nat.add_assoc, Nat.add_left_comm]

/-! ## Pointer-form lemmas -/

/-- The merge pops only the five content fields from the child; every
other key of the child (in particular `type` and `id`) is untouched. -/
theorem getKey?_mergeRetweet_child (p c : Rec) {k : String}
    (h1 : k ≠ "text") (h2 : k ≠ "entities") (h3 : k ≠ "attachments")
    (h4 : k ≠ "context_annotations") (h5 : k ≠ "public_metrics") :
    getKey? (mergeRetweet p c).2 k = getKey? c k := by
  simp only [mergeRetweet, inheritField]
  rw [getKey?_eraseKey, if_neg (Ne.symm h5), getKey?_eraseKey,
    if_neg (Ne.symm h4), getKey?_eraseKey, if_neg (Ne.symm h3),
    getKey?_eraseKey, if_neg (Ne.symm h2), getKey?_eraseKey,
    if_neg (Ne.symm h1)]

theorem getLast?_cons_of_ne_nil {α : Type} (a : α) {l : List α} (h : l ≠ []) :
    (a :: l).getLast? = l.getLast? := by
  cases l with
  | nil => exact absurd rfl h
  | cons b bs => exact List.getLast?_cons_cons

/-- Replacing the last element satisfying `p` by a record with the same
`type` and `id` leaves the pointer pairs unchanged. -/
theorem pointerPairs_replaceLastSat (p : Rec → Bool) (c : Rec) (l : List Rec)
    (h : ∀ x, (l.filter p).getLast? = some x →
        typeStrOf c = typeStrOf x ∧ getKey? c "id" = getKey? x "id") :
    pointerPairs (replaceLastSat p c l) = pointerPairs l := by
  induction l with
  | nil => rfl
  | cons x xs ih =>
    rw [replaceLastSat]
    by_cases ha : xs.any p
    · rw [if_pos ha]
      have hne : xs.filter p ≠ [] := by
        intro hc
        rcases List.any_eq_true.mp ha with ⟨y, hy, hpy⟩
        have := List.filter_eq_nil_iff.mp hc y hy
        exact this hpy
      have hlast : ((x :: xs).filter p).getLast? = (xs.filter p).getLast? := by
        rw [List.filter_cons]
        by_cases hpx : p x
        · rw [if_pos (by simp [hpx])]
          exact getLast?_cons_of_ne_nil x hne
        · rw [if_neg (by simp [hpx])]
      have ih2 := ih (fun y hy => h y (by rw [hlast]; exact hy))
      simp only [pointerPairs, List.map_cons] at ih2 ⊢
      rw [ih2]
    · rw [if_neg ha]
      by_cases hpx : p x
      · rw [if_pos hpx]
        have hfe : xs.filter p = [] := by
          rw [List.filter_eq_nil_iff]
          intro y hy hpy
          exact (Bool.eq_false_iff.mp (Bool.of_not_eq_true
            (fun hc => ha (List.any_eq_true.mpr ⟨y, hy, hc⟩)))) hpy
        have hlast : ((x :: xs).filter p).getLast? = some x := by
          rw [List.filter_cons, if_pos (by simp [hpx]), hfe]
          rfl
        rcases h x hlast with ⟨ht, hid⟩
        simp only [pointerPairs, List.map_cons]
        rw [ht, hid]
      · rw [if_neg hpx]

/-- When `tweet["referenced_tweets"]` holds a list of dicts, `refsOf`
recovers exactly those dicts. -/
theorem refsOf_objs {t : Rec} {refs : List Rec}
    (h : getKey? t "referenced_tweets" = some (JVal.arr (refs.map JVal.obj))) :
    refsOf t = refs := by
  unfold refsOf
  rw [h]
  simp only [List.map_map]
  have hid : ∀ rs : List Rec, List.map (asObj ∘ JVal.obj) rs = rs := by
    intro rs
    induction rs with
    | nil => rfl
    | cons a l ih => simp [asObj, ih]
  exact hid refs

/-- The record produced by `_format_tweet` always carries the
reconstructed pointer-only `referenced_tweets` mapping
`dict(ChainMap(*[{type: {id}}...]))` over the (possibly merged)
reference list — and merging never changes a reference's `type`/`id`,
so the mapping is the one of the input references. -/
theorem getKey?_formatTweet_refs (cfg : Config) (st : Counts) (t : Rec)
    (refs : List Rec)
    (href : getKey? t "referenced_tweets" = some (JVal.arr (refs.map JVal.obj))) :
    getKey? (formatTweet cfg st t).1 "referenced_tweets"
      = some (JVal.obj (pointerDict refs)) := by
  have hE : getKey? (eraseKey (eraseKey t "pinned_tweet") "in_reply_to_user")
      "referenced_tweets" = some (JVal.arr (refs.map JVal.obj)) := by
    rw [getKey?_eraseKey, if_neg (by decide), getKey?_eraseKey,
      if_neg (by decide)]
    exact href
  have hH : hasKey (eraseKey (eraseKey t "pinned_tweet") "in_reply_to_user")
      "referenced_tweets" = true := by
    rw [hasKey_iff_getKey?, hE]
    rfl
  simp only [formatTweet, hH, if_true, refsOf_objs hE]
  rw [getKey?_formatFinish_refs]
  cases hrt : (refs.filter (isType "retweeted")).getLast? with
  | none => rfl
  | some rt =>
    by_cases hm : cfg.merge_retweets
    · simp only [hm, if_true]
      have hgen : ∀ t2 : Rec,
          pointerDict (replaceLastSat (isType "retweeted")
            (mergeRetweet t2 rt).2 refs) = pointerDict refs := by
        intro t2
        unfold pointerDict
        rw [pointerPairs_replaceLastSat]
        intro x hx
        rw [hrt] at hx
        cases hx
        constructor
        · unfold typeStrOf
          rw [getKey?_mergeRetweet_child _ _ (by decide) (by decide) (by decide)
            (by decide) (by decide)]
        · rw [getKey?_mergeRetweet_child _ _ (by decide) (by decide) (by decide)
            (by decide) (by decide)]
      rw [hgen _]
    · simp only [hm, Bool.false_eq_true, if_false]

/-! ## Claims C4 and C10 -/

/-- C4: with inlining enabled and a `referenced_tweets` list present,
the stage yields exactly the substantive references (more than 3 keys
after `__twarc` injection), formatted, in order, all before the parent's
own row, which comes last; the parent row's `referenced_tweets` field is
the pointer-only mapping (each reference's type mapped to `{id}`);
stub references produce no row and are counted `unavailable`; and every
reference is counted. -/
theorem inline_enabled_claims (cfg : Config) (st : Counts) (tweet : Rec)
    (refs : List Rec)
    (hin : cfg.inline_referenced_tweets = true)
    (href : getKey? tweet "referenced_tweets"
      = some (JVal.arr (refs.map JVal.obj))) :
    (inlineReferencedTweets cfg st tweet).1
      = inlineChildren cfg ((getKey? tweet "__twarc").getD JVal.null) refs
        ++ [(formatTweet cfg counts0 (setKey tweet "referenced_tweets"
            (JVal.arr ((refs.map
              (injectTwarc ((getKey? tweet "__twarc").getD JVal.null))).map
                JVal.obj)))).1] ∧
    getKey? (formatTweet cfg counts0 (setKey tweet "referenced_tweets"
            (JVal.arr ((refs.map
              (injectTwarc ((getKey? tweet "__twarc").getD JVal.null))).map
                JVal.obj)))).1 "referenced_tweets"
      = some (JVal.obj (pointerDict (refs.map
          (injectTwarc ((getKey? tweet "__twarc").getD JVal.null))))) ∧
    (inlineReferencedTweets cfg st tweet).2.unavailable
      = st.unavailable
        + (refs.map (injectTwarc ((getKey? tweet "__twarc").getD JVal.null))).countP
            (fun r => !decide (r.length > 3)) ∧
    (inlineReferencedTweets cfg st tweet).2.referenced_tweets
      = st.referenced_tweets + refs.length := by
  have hH : hasKey tweet "referenced_tweets" = true := by
    rw [hasKey_iff_getKey?, href]
    rfl
  have hcond : (hasKey tweet "referenced_tweets"
      && cfg.inline_referenced_tweets) = true := by
    rw [hH, hin]
    rfl
  refine ⟨?_, ?_, ?_, ?_⟩
  · simp only [inlineReferencedTweets, hcond, if_true, refsOf_objs href]
    rw [inline_fold_rows, formatTweet_fst_st cfg _ counts0]
    simp
  · exact getKey?_formatTweet_refs cfg counts0 _ _
      (by rw [getKey?_setKey, if_pos rfl])
  · simp only [inlineReferencedTweets, hcond, if_true, refsOf_objs href]
    rw [(formatTweet_counts_preserved cfg _ _).2.2.2.1, inline_fold_unavailable]
  · simp only [inlineReferencedTweets, hcond, if_true, refsOf_objs href]
    rw [(formatTweet_counts_preserved cfg _ _).2.2.1, inline_fold_referenced]

def sampleRef1 : Rec :=
  [("type", JVal.str "quoted"), ("id", JVal.str "9"), ("text", JVal.str "hi")]

def sampleRef2 : Rec :=
  [("type", JVal.str "replied_to"), ("id", JVal.str "8")]

def sampleTweet : Rec :=
  [("id", JVal.str "1"),
   ("referenced_tweets", JVal.arr [JVal.obj sampleRef1, JVal.obj sampleRef2])]

def cfgInline : Config := { inline_referenced_tweets := true }

/-- Closed instance of `inline_enabled_claims`: one substantive and one
stub reference. -/
theorem inline_enabled_claims_witness :
    (inlineReferencedTweets cfgInline counts0 sampleTweet).1
      = inlineChildren cfgInline
          ((getKey? sampleTweet "__twarc").getD JVal.null)
          [sampleRef1, sampleRef2]
        ++ [(formatTweet cfgInline counts0 (setKey sampleTweet "referenced_tweets"
            (JVal.arr (([sampleRef1, sampleRef2].map
              (injectTwarc ((getKey? sampleTweet "__twarc").getD JVal.null))).map
                JVal.obj)))).1] ∧
    getKey? (formatTweet cfgInline counts0 (setKey sampleTweet "referenced_tweets"
            (JVal.arr (([sampleRef1, sampleRef2].map
              (injectTwarc ((getKey? sampleTweet "__twarc").getD JVal.null))).map
                JVal.obj)))).1 "referenced_tweets"
      = some (JVal.obj (pointerDict ([sampleRef1, sampleRef2].map
          (injectTwarc ((getKey? sampleTweet "__twarc").getD JVal.null))))) ∧
    (inlineReferencedTweets cfgInline counts0 sampleTweet).2.unavailable
      = counts0.unavailable
        + (([sampleRef1, sampleRef2]).map
            (injectTwarc ((getKey? sampleTweet "__twarc").getD JVal.null))).countP
            (fun r => !decide (r.length > 3)) ∧
    (inlineReferencedTweets cfgInline counts0 sampleTweet).2.referenced_tweets
      = counts0.referenced_tweets + ([sampleRef1, sampleRef2] : List Rec).length :=
  inline_enabled_claims cfgInline counts0 sampleTweet [sampleRef1, sampleRef2]
    rfl (by decide)

theorem countP_stub_inject (tw : JVal) (refs : List Rec) :
    (refs.map (injectTwarc tw)).countP (fun r => !decide (r.length > 3))
      = refs.countP (fun r =>
          !decide ((if hasKey r "__twarc" then r.length else r.length + 1) > 3)) := by
  induction refs with
  | nil => rfl
  | cons r rest ih =>
    simp only [List.map_cons, List.countP_cons, ih]
    congr 2
    rw [show (injectTwarc tw r).length
      = if hasKey r "__twarc" then r.length else r.length + 1
      from length_setKey r "__twarc" tw]

/-- C10: with inlining enabled, every reference — stubs included — gets
its `__twarc` field set to the parent's `__twarc` value (or `None` when
the parent has none) before the substantive-field check; the injected
key counts toward the "more than 3 keys" test, which therefore compares
the original key count (+1 when `__twarc` was absent) against 3; the
row/stub split follows that injected count. -/
theorem inline_twarc_injection_claims (cfg : Config) (st : Counts)
    (tweet : Rec) (refs : List Rec)
    (hin : cfg.inline_referenced_tweets = true)
    (href : getKey? tweet "referenced_tweets"
      = some (JVal.arr (refs.map JVal.obj))) :
    (∀ r ∈ refs,
      getKey? (injectTwarc ((getKey? tweet "__twarc").getD JVal.null) r) "__twarc"
        = some ((getKey? tweet "__twarc").getD JVal.null)) ∧
    (∀ r ∈ refs,
      (injectTwarc ((getKey? tweet "__twarc").getD JVal.null) r).length
        = if hasKey r "__twarc" then r.length else r.length + 1) ∧
    (inlineReferencedTweets cfg st tweet).1.length
      = ((refs.map (injectTwarc ((getKey? tweet "__twarc").getD JVal.null))).filter
          (fun r => decide (r.length > 3))).length + 1 ∧
    (inlineReferencedTweets cfg st tweet).2.unavailable
      = st.unavailable + refs.countP (fun r =>
          !decide ((if hasKey r "__twarc" then r.length else r.length + 1) > 3)) := by
  have hH : hasKey tweet "referenced_tweets" = true := by
    rw [hasKey_iff_getKey?, href]
    rfl
  have hcond : (hasKey tweet "referenced_tweets"
      && cfg.inline_referenced_tweets) = true := by
    rw [hH, hin]
    rfl
  refine ⟨?_, ?_, ?_, ?_⟩
  · intro r _
    rw [injectTwarc, getKey?_setKey, if_pos rfl]
  · intro r _
    exact length_setKey r "__twarc" _
  · simp only [inlineReferencedTweets, hcond, if_true, refsOf_objs href]
    rw [inline_fold_rows]
    simp [inlineChildren]
  · simp only [inlineReferencedTweets, hcond, if_true, refsOf_objs href]
    rw [(formatTweet_counts_preserved cfg _ _).2.2.2.1, inline_fold_unavailable,
      countP_stub_inject]

/-- Closed instance of `inline_twarc_injection_claims` at the sample
record (the stub has 2 keys, 3 after injection, and is dropped; the
substantive reference has 4 after injection and is kept). -/
theorem inline_twarc_injection_claims_witness :
    (∀ r ∈ ([sampleRef1, sampleRef2] : List Rec),
      getKey? (injectTwarc ((getKey? sampleTweet "__twarc").getD JVal.null) r)
          "__twarc"
        = some ((getKey? sampleTweet "__twarc").getD JVal.null)) ∧
    (∀ r ∈ ([sampleRef1, sampleRef2] : List Rec),
      (injectTwarc ((getKey? sampleTweet "__twarc").getD JVal.null) r).length
        = if hasKey r "__twarc" then r.length else r.length + 1) ∧
    (inlineReferencedTweets cfgInline counts0 sampleTweet).1.length
      = (([sampleRef1, sampleRef2].map
          (injectTwarc ((getKey? sampleTweet "__twarc").getD JVal.null))).filter
          (fun r => decide (r.length > 3))).length + 1 ∧
    (inlineReferencedTweets cfgInline counts0 sampleTweet).2.unavailable
      = counts0.unavailable + ([sampleRef1, sampleRef2] : List Rec).countP
          (fun r =>
            !decide ((if hasKey r "__twarc" then r.length else r.length + 1) > 3)) :=
  inline_twarc_injection_claims cfgInline counts0 sampleTweet
    [sampleRef1, sampleRef2] rfl (by decide)

/-! ## Merge lemmas (claim C7) -/

/-- The effect of `if k in tweet and not tweet[k]: tweet.pop(k)` on the
looked-up value. -/
def optPop : Option JVal → Option JVal
  | some v => if isFalsy v then none else some v
  | none => none

theorem getKey?_formatFinish_attachments (t : Rec) :
    getKey? (formatFinish t) "attachments" = optPop (getKey? t "attachments") := by
  unfold formatFinish
  rw [getKey?_popIfEmpty_ne _ (by decide), getKey?_popIfEmpty_ne _ (by decide),
    getKey?_popIfEmpty_ne _ (by decide), getKey?_popIfEmpty, if_pos rfl,
    getKey?_eraseKey, if_neg (by decide)]
  cases getKey? t "attachments" <;> simp [optPop]

theorem getKey?_formatFinish_entities (t : Rec) :
    getKey? (formatFinish t) "entities" = optPop (getKey? t "entities") := by
  unfold formatFinish
  rw [getKey?_popIfEmpty_ne _ (by decide), getKey?_popIfEmpty_ne _ (by decide),
    getKey?_popIfEmpty, if_pos rfl]
  have h : getKey? (popIfEmpty (eraseKey t "type") "attachments") "entities"
      = getKey? t "entities" := by
    rw [getKey?_popIfEmpty_ne _ (by decide), getKey?_eraseKey,
      if_neg (by decide)]
  rw [h]
  cases getKey? t "entities" <;> simp [optPop]

theorem getKey?_formatFinish_public_metrics (t : Rec) :
    getKey? (formatFinish t) "public_metrics"
      = optPop (getKey? t "public_metrics") := by
  unfold formatFinish
  rw [getKey?_popIfEmpty_ne _ (by decide), getKey?_popIfEmpty, if_pos rfl]
  have h : getKey? (popIfEmpty (popIfEmpty (eraseKey t "type") "attachments")
      "entities") "public_metrics" = getKey? t "public_metrics" := by
    rw [getKey?_popIfEmpty_ne _ (by decide), getKey?_popIfEmpty_ne _ (by decide),
      getKey?_eraseKey, if_neg (by decide)]
  rw [h]
  cases getKey? t "public_metrics" <;> simp [optPop]

theorem getKey?_inheritField_fst_self (k : String) (pc : Rec × Rec) :
    getKey? (inheritField k pc).1 k
      = some ((getKey? pc.2 k).getD ((getKey? pc.1 k).getD JVal.null)) := by
  unfold inheritField
  rw [getKey?_setKey, if_pos rfl]

theorem getKey?_inheritField_fst_ne (k : String) (pc : Rec × Rec)
    {k' : String} (h : k ≠ k') :
    getKey? (inheritField k pc).1 k' = getKey? pc.1 k' := by
  unfold inheritField
  rw [getKey?_setKey, if_neg h, getKey?_eraseKey, if_neg h]

theorem getKey?_inheritField_snd_ne (k : String) (pc : Rec × Rec)
    {k' : String} (h : k ≠ k') :
    getKey? (inheritField k pc).2 k' = getKey? pc.2 k' := by
  unfold inheritField
  rw [getKey?_eraseKey, if_neg h]

theorem hasKey_inheritField_snd_self (k : String) (pc : Rec × Rec) :
    hasKey (inheritField k pc).2 k = false := by
  unfold inheritField
  rw [hasKey_eraseKey, if_pos rfl]

theorem hasKey_inheritField_snd_ne (k : String) (pc : Rec × Rec)
    {k' : String} (h : k ≠ k') :
    hasKey (inheritField k pc).2 k' = hasKey pc.2 k' := by
  unfold inheritField
  rw [hasKey_eraseKey, if_neg h]

/-- The parent after the merge holds, for each of the five content
fields, the child's value when the child has the field and its own old
value otherwise (the eager `pop` default). -/
theorem mergeRetweet_fst_values (p c : Rec) :
    getKey? (mergeRetweet p c).1 "text"
      = some ((getKey? c "text").getD ((getKey? p "text").getD JVal.null)) ∧
    getKey? (mergeRetweet p c).1 "entities"
      = some ((getKey? c "entities").getD ((getKey? p "entities").getD JVal.null)) ∧
    getKey? (mergeRetweet p c).1 "attachments"
      = some ((getKey? c "attachments").getD
          ((getKey? p "attachments").getD JVal.null)) ∧
    getKey? (mergeRetweet p c).1 "context_annotations"
      = some ((getKey? c "context_annotations").getD
          ((getKey? p "context_annotations").getD JVal.null)) ∧
    getKey? (mergeRetweet p c).1 "public_metrics"
      = some ((getKey? c "public_metrics").getD
          ((getKey? p "public_metrics").getD JVal.null)) := by
  unfold mergeRetweet
  refine ⟨?_, ?_, ?_, ?_, ?_⟩
  · rw [getKey?_inheritField_fst_ne _ _ (by decide),
      getKey?_inheritField_fst_ne _ _ (by decide),
      getKey?_inheritField_fst_ne _ _ (by decide),
      getKey?_inheritField_fst_ne _ _ (by decide),
      getKey?_inheritField_fst_self]
  · rw [getKey?_inheritField_fst_ne _ _ (by decide),
      getKey?_inheritField_fst_ne _ _ (by decide),
      getKey?_inheritField_fst_ne _ _ (by decide),
      getKey?_inheritField_fst_self,
      getKey?_inheritField_snd_ne _ _ (by decide),
      getKey?_inheritField_fst_ne _ _ (by decide)]
  · rw [getKey?_inheritField_fst_ne _ _ (by decide),
      getKey?_inheritField_fst_ne _ _ (by decide),
      getKey?_inheritField_fst_self,
      getKey?_inheritField_snd_ne _ _ (by decide),
      getKey?_inheritField_snd_ne _ _ (by decide),
      getKey?_inheritField_fst_ne _ _ (by decide),
      getKey?_inheritField_fst_ne _ _ (by decide)]
  · rw [getKey?_inheritField_fst_ne _ _ (by decide),
      getKey?_inheritField_fst_self,
      getKey?_inheritField_snd_ne _ _ (by decide),
      getKey?_inheritField_snd_ne _ _ (by decide),
      getKey?_inheritField_snd_ne _ _ (by decide),
      getKey?_inheritField_fst_ne _ _ (by decide),
      getKey?_inheritField_fst_ne _ _ (by decide),
      getKey?_inheritField_fst_ne _ _ (by decide)]
  · rw [getKey?_inheritField_fst_self,
      getKey?_inheritField_snd_ne _ _ (by decide),
      getKey?_inheritField_snd_ne _ _ (by decide),
      getKey?_inheritField_snd_ne _ _ (by decide),
      getKey?_inheritField_snd_ne _ _ (by decide),
      getKey?_inheritField_fst_ne _ _ (by decide),
      getKey?_inheritField_fst_ne _ _ (by decide),
      getKey?_inheritField_fst_ne _ _ (by decide),
      getKey?_inheritField_fst_ne _ _ (by decide)]

/-- After the transfer the child has lost all five content fields. -/
theorem mergeRetweet_snd_popped (p c : Rec) :
    hasKey (mergeRetweet p c).2 "text" = false ∧
    hasKey (mergeRetweet p c).2 "entities" = false ∧
    hasKey (mergeRetweet p c).2 "attachments" = false ∧
    hasKey (mergeRetweet p c).2 "context_annotations" = false ∧
    hasKey (mergeRetweet p c).2 "public_metrics" = false := by
  unfold mergeRetweet
  refine ⟨?_, ?_, ?_, ?_, ?_⟩
  · rw [hasKey_inheritField_snd_ne _ _ (by decide),
      hasKey_inheritField_snd_ne _ _ (by decide),
      hasKey_inheritField_snd_ne _ _ (by decide),
      hasKey_inheritField_snd_ne _ _ (by decide),
      hasKey_inheritField_snd_self]
  · rw [hasKey_inheritField_snd_ne _ _ (by decide),
      hasKey_inheritField_snd_ne _ _ (by decide),
      hasKey_inheritField_snd_ne _ _ (by decide),
      hasKey_inheritField_snd_self]
  · rw [hasKey_inheritField_snd_ne _ _ (by decide),
      hasKey_inheritField_snd_ne _ _ (by decide),
      hasKey_inheritField_snd_self]
  · rw [hasKey_inheritField_snd_ne _ _ (by decide),
      hasKey_inheritField_snd_self]
  · rw [hasKey_inheritField_snd_self]

theorem formatTweet_no_retweet_content (cfg : Config) (st : Counts) (u : Rec)
    (refsU : List Rec)
    (hrefU : getKey? u "referenced_tweets" = some (JVal.arr (refsU.map JVal.obj)))
    (hnort : (refsU.filter (isType "retweeted")).getLast? = none) :
    getKey? (formatTweet cfg st u).1 "text" = getKey? u "text" ∧
    getKey? (formatTweet cfg st u).1 "context_annotations"
      = getKey? u "context_annotations" ∧
    getKey? (formatTweet cfg st u).1 "entities" = optPop (getKey? u "entities") ∧
    getKey? (formatTweet cfg st u).1 "attachments"
      = optPop (getKey? u "attachments") ∧
    getKey? (formatTweet cfg st u).1 "public_metrics"
      = optPop (getKey? u "public_metrics") := by
  have hE : getKey? (eraseKey (eraseKey u "pinned_tweet") "in_reply_to_user")
      "referenced_tweets" = some (JVal.arr (refsU.map JVal.obj)) := by
    rw [getKey?_eraseKey, if_neg (by decide), getKey?_eraseKey,
      if_neg (by decide)]
    exact hrefU
  have hH : hasKey (eraseKey (eraseKey u "pinned_tweet") "in_reply_to_user")
      "referenced_tweets" = true := by
    rw [hasKey_iff_getKey?, hE]
    rfl
  have hbase : ∀ k : String, k ≠ "pinned_tweet" → k ≠ "in_reply_to_user" →
      getKey? (eraseKey (eraseKey u "pinned_tweet") "in_reply_to_user") k
        = getKey? u k := by
    intro k h1 h2
    rw [getKey?_eraseKey, if_neg (Ne.symm h2), getKey?_eraseKey,
      if_neg (Ne.symm h1)]
  simp only [formatTweet, hH, if_true, refsOf_objs hE, hnort]
  cases hq2 : (refsU.filter (isType "quoted")).getLast? with
  | none =>
    refine ⟨?_, ?_, ?_, ?_, ?_⟩
    · rw [getKey?_formatFinish_ne _ (by decide) (by decide) (by decide)
        (by decide) (by decide), getKey?_setKey, if_neg (by decide),
        hbase _ (by decide) (by decide)]
    · rw [getKey?_formatFinish_ne _ (by decide) (by decide) (by decide)
        (by decide) (by decide), getKey?_setKey, if_neg (by decide),
        hbase _ (by decide) (by decide)]
    · rw [getKey?_formatFinish_entities, getKey?_setKey, if_neg (by decide),
        hbase _ (by decide) (by decide)]
    · rw [getKey?_formatFinish_attachments, getKey?_setKey, if_neg (by decide),
        hbase _ (by decide) (by decide)]
    · rw [getKey?_formatFinish_public_metrics, getKey?_setKey,
        if_neg (by decide), hbase _ (by decide) (by decide)]
  | some qt =>
    by_cases hqa : hasKey qt "author_id"
    · simp only [hqa, if_true]
      refine ⟨?_, ?_, ?_, ?_, ?_⟩
      · rw [getKey?_formatFinish_ne _ (by decide) (by decide) (by decide)
          (by decide) (by decide), getKey?_setKey, if_neg (by decide),
          getKey?_setKey, if_neg (by decide), hbase _ (by decide) (by decide)]
      · rw [getKey?_formatFinish_ne _ (by decide) (by decide) (by decide)
          (by decide) (by decide), getKey?_setKey, if_neg (by decide),
          getKey?_setKey, if_neg (by decide), hbase _ (by decide) (by decide)]
      · rw [getKey?_formatFinish_entities, getKey?_setKey, if_neg (by decide),
          getKey?_setKey, if_neg (by decide), hbase _ (by decide) (by decide)]
      · rw [getKey?_formatFinish_attachments, getKey?_setKey,
          if_neg (by decide), getKey?_setKey, if_neg (by decide),
          hbase _ (by decide) (by decide)]
      · rw [getKey?_formatFinish_public_metrics, getKey?_setKey,
          if_neg (by decide), getKey?_setKey, if_neg (by decide),
          hbase _ (by decide) (by decide)]
    · simp only [hqa, Bool.false_eq_true, if_false]
      refine ⟨?_, ?_, ?_, ?_, ?_⟩
      · rw [getKey?_formatFinish_ne _ (by decide) (by decide) (by decide)
          (by decide) (by decide), getKey?_setKey, if_neg (by decide),
          hbase _ (by decide) (by decide)]
      · rw [getKey?_formatFinish_ne _ (by decide) (by decide) (by decide)
          (by decide) (by decide), getKey?_setKey, if_neg (by decide),
          hbase _ (by decide) (by decide)]
      · rw [getKey?_formatFinish_entities, getKey?_setKey, if_neg (by decide),
          hbase _ (by decide) (by decide)]
      · rw [getKey?_formatFinish_attachments, getKey?_setKey,
          if_neg (by decide), hbase _ (by decide) (by decide)]
      · rw [getKey?_formatFinish_public_metrics, getKey?_setKey,
          if_neg (by decide), hbase _ (by decide) (by decide)]

theorem formatTweet_quote_count (cfg : Config) (st : Counts) (u : Rec)
    (refsU : List Rec) (qt : Rec)
    (hrefU : getKey? u "referenced_tweets" = some (JVal.arr (refsU.map JVal.obj)))
    (hq : (refsU.filter (isType "quoted")).getLast? = some qt)
    (hqa : hasKey qt "author_id" = true) :
    (formatTweet cfg st u).2.quotes = st.quotes + 1 := by
  have hE : getKey? (eraseKey (eraseKey u "pinned_tweet") "in_reply_to_user")
      "referenced_tweets" = some (JVal.arr (refsU.map JVal.obj)) := by
    rw [getKey?_eraseKey, if_neg (by decide), getKey?_eraseKey,
      if_neg (by decide)]
    exact hrefU
  have hH : hasKey (eraseKey (eraseKey u "pinned_tweet") "in_reply_to_user")
      "referenced_tweets" = true := by
    rw [hasKey_iff_getKey?, hE]
    rfl
  simp only [formatTweet, hH, if_true, refsOf_objs hE, hq, hqa]
  (repeat' split) <;> simp

theorem formatTweet_reply_count (cfg : Config) (st : Counts) (u : Rec)
    (refsU : List Rec)
    (hrefU : getKey? u "referenced_tweets" = some (JVal.arr (refsU.map JVal.obj)))
    (hrep : ((refsU.filter (isType "replied_to")).getLast?).isSome = true) :
    (formatTweet cfg st u).2.replies = st.replies + 1 := by
  have hE : getKey? (eraseKey (eraseKey u "pinned_tweet") "in_reply_to_user")
      "referenced_tweets" = some (JVal.arr (refsU.map JVal.obj)) := by
    rw [getKey?_eraseKey, if_neg (by decide), getKey?_eraseKey,
      if_neg (by decide)]
    exact hrefU
  have hH : hasKey (eraseKey (eraseKey u "pinned_tweet") "in_reply_to_user")
      "referenced_tweets" = true := by
    rw [hasKey_iff_getKey?, hE]
    rfl
  simp only [formatTweet, hH, if_true, refsOf_objs hE, hrep, Bool.or_true,
    if_true]
  (repeat' split) <;> simp

/-! ## Claim C7 -/

set_option maxHeartbeats 1000000 in
/-- C7: with `merge_retweets` enabled and a "retweeted"-typed reference
present, the formatted parent carries the child's `text`, `entities`,
`attachments`, `context_annotations` and `public_metrics` (the parent's
own values are discarded in favor of the child's), and the transfer pops
those five fields from the child; when no "retweeted" reference is
present ("quoted" / "replied_to" only), the content fields derive only
from the parent record itself (unchanged, up to the removal of empty
objects), while quoted and replied_to references are still counted. -/
theorem merge_retweets_claims (cfg : Config) (st : Counts) (tweet : Rec)
    (refs : List Rec) (rt : Rec) (vt ve va vc vp : JVal)
    (hm : cfg.merge_retweets = true)
    (href : getKey? tweet "referenced_tweets"
      = some (JVal.arr (refs.map JVal.obj)))
    (hrt : (refs.filter (isType "retweeted")).getLast? = some rt)
    (htext : getKey? rt "text" = some vt)
    (hent : getKey? rt "entities" = some ve)
    (hatt : getKey? rt "attachments" = some va)
    (hctx : getKey? rt "context_annotations" = some vc)
    (hpm : getKey? rt "public_metrics" = some vp)
    (hfe : isFalsy ve = false) (hfa : isFalsy va = false)
    (hfp : isFalsy vp = false) :
    getKey? (formatTweet cfg st tweet).1 "text" = some vt ∧
    getKey? (formatTweet cfg st tweet).1 "entities" = some ve ∧
    getKey? (formatTweet cfg st tweet).1 "attachments" = some va ∧
    getKey? (formatTweet cfg st tweet).1 "context_annotations" = some vc ∧
    getKey? (formatTweet cfg st tweet).1 "public_metrics" = some vp ∧
    (∀ p : Rec,
      hasKey (mergeRetweet p rt).2 "text" = false ∧
      hasKey (mergeRetweet p rt).2 "entities" = false ∧
      hasKey (mergeRetweet p rt).2 "attachments" = false ∧
      hasKey (mergeRetweet p rt).2 "context_annotations" = false ∧
      hasKey (mergeRetweet p rt).2 "public_metrics" = false) ∧
    (∀ (u : Rec) (refsU : List Rec),
      getKey? u "referenced_tweets" = some (JVal.arr (refsU.map JVal.obj)) →
      (refsU.filter (isType "retweeted")).getLast? = none →
      getKey? (formatTweet cfg st u).1 "text" = getKey? u "text" ∧
      getKey? (formatTweet cfg st u).1 "context_annotations"
        = getKey? u "context_annotations" ∧
      getKey? (formatTweet cfg st u).1 "entities"
        = optPop (getKey? u "entities") ∧
      getKey? (formatTweet cfg st u).1 "attachments"
        = optPop (getKey? u "attachments") ∧
      getKey? (formatTweet cfg st u).1 "public_metrics"
        = optPop (getKey? u "public_metrics")) ∧
    (∀ (u : Rec) (refsU : List Rec) (qt : Rec),
      getKey? u "referenced_tweets" = some (JVal.arr (refsU.map JVal.obj)) →
      (refsU.filter (isType "quoted")).getLast? = some qt →
      hasKey qt "author_id" = true →
      (formatTweet cfg st u).2.quotes = st.quotes + 1) ∧
    (∀ (u : Rec) (refsU : List Rec),
      getKey? u "referenced_tweets" = some (JVal.arr (refsU.map JVal.obj)) →
      ((refsU.filter (isType "replied_to")).getLast?).isSome = true →
      (formatTweet cfg st u).2.replies = st.replies + 1) := by
  have hE : getKey? (eraseKey (eraseKey tweet "pinned_tweet") "in_reply_to_user")
      "referenced_tweets" = some (JVal.arr (refs.map JVal.obj)) := by
    rw [getKey?_eraseKey, if_neg (by decide), getKey?_eraseKey,
      if_neg (by decide)]
    exact href
  have hH : hasKey (eraseKey (eraseKey tweet "pinned_tweet") "in_reply_to_user")
      "referenced_tweets" = true := by
    rw [hasKey_iff_getKey?, hE]
    rfl
  have hmain : getKey? (formatTweet cfg st tweet).1 "text" = some vt ∧
      getKey? (formatTweet cfg st tweet).1 "entities" = some ve ∧
      getKey? (formatTweet cfg st tweet).1 "attachments" = some va ∧
      getKey? (formatTweet cfg st tweet).1 "context_annotations" = some vc ∧
      getKey? (formatTweet cfg st tweet).1 "public_metrics" = some vp := by
    simp only [formatTweet, hH, if_true, refsOf_objs hE, hrt, hm, if_true]
    refine ⟨?_, ?_, ?_, ?_, ?_⟩
    · rw [getKey?_formatFinish_ne _ (by decide) (by decide) (by decide)
        (by decide) (by decide), getKey?_setKey, if_neg (by decide),
        (mergeRetweet_fst_values _ rt).1, htext]
      rfl
    · rw [getKey?_formatFinish_entities, getKey?_setKey, if_neg (by decide),
        (mergeRetweet_fst_values _ rt).2.1, hent]
      simp [optPop, hfe]
    · rw [getKey?_formatFinish_attachments, getKey?_setKey, if_neg (by decide),
        (mergeRetweet_fst_values _ rt).2.2.1, hatt]
      simp [optPop, hfa]
    · rw [getKey?_formatFinish_ne _ (by decide) (by decide) (by decide)
        (by decide) (by decide), getKey?_setKey, if_neg (by decide),
        (mergeRetweet_fst_values _ rt).2.2.2.1, hctx]
      rfl
    · rw [getKey?_formatFinish_public_metrics, getKey?_setKey,
        if_neg (by decide), (mergeRetweet_fst_values _ rt).2.2.2.2, hpm]
      simp [optPop, hfp]
  refine ⟨hmain.1, hmain.2.1, hmain.2.2.1, hmain.2.2.2.1, hmain.2.2.2.2,
    fun p => mergeRetweet_snd_popped p rt, ?_, ?_, ?_⟩
  · intro u refsU hrefU hnort
    exact formatTweet_no_retweet_content cfg st u refsU hrefU hnort
  · intro u refsU qt hrefU hq hqa
    exact formatTweet_quote_count cfg st u refsU qt hrefU hq hqa
  · intro u refsU hrefU hrep
    exact formatTweet_reply_count cfg st u refsU hrefU hrep

def rtSample : Rec :=
  [("type", JVal.str "retweeted"), ("id", JVal.str "7"),
   ("author_id", JVal.str "5"), ("text", JVal.str "orig"),
   ("entities", JVal.obj [("hashtags", JVal.arr [JVal.str "h"])]),
   ("attachments", JVal.obj [("media_keys", JVal.arr [JVal.str "m"])]),
   ("context_annotations", JVal.arr [JVal.str "c"]),
   ("public_metrics", JVal.obj [("like_count", JVal.num 3)])]

def tweetM : Rec :=
  [("id", JVal.str "1"), ("text", JVal.str "RT @x orig"),
   ("referenced_tweets", JVal.arr [JVal.obj rtSample])]

/-- Closed instance of `merge_retweets_claims`: a retweet whose embedded
original carries all five content fields. -/
theorem merge_retweets_claims_witness :
    getKey? (formatTweet {} counts0 tweetM).1 "text" = some (JVal.str "orig") ∧
    getKey? (formatTweet {} counts0 tweetM).1 "entities"
      = some (JVal.obj [("hashtags", JVal.arr [JVal.str "h"])]) ∧
    getKey? (formatTweet {} counts0 tweetM).1 "attachments"
      = some (JVal.obj [("media_keys", JVal.arr [JVal.str "m"])]) ∧
    getKey? (formatTweet {} counts0 tweetM).1 "context_annotations"
      = some (JVal.arr [JVal.str "c"]) ∧
    getKey? (formatTweet {} counts0 tweetM).1 "public_metrics"
      = some (JVal.obj [("like_count", JVal.num 3)]) ∧
    (∀ p : Rec,
      hasKey (mergeRetweet p rtSample).2 "text" = false ∧
      hasKey (mergeRetweet p rtSample).2 "entities" = false ∧
      hasKey (mergeRetweet p rtSample).2 "attachments" = false ∧
      hasKey (mergeRetweet p rtSample).2 "context_annotations" = false ∧
      hasKey (mergeRetweet p rtSample).2 "public_metrics" = false) ∧
    (∀ (u : Rec) (refsU : List Rec),
      getKey? u "referenced_tweets" = some (JVal.arr (refsU.map JVal.obj)) →
      (refsU.filter (isType "retweeted")).getLast? = none →
      getKey? (formatTweet {} counts0 u).1 "text" = getKey? u "text" ∧
      getKey? (formatTweet {} counts0 u).1 "context_annotations"
        = getKey? u "context_annotations" ∧
      getKey? (formatTweet {} counts0 u).1 "entities"
        = optPop (getKey? u "entities") ∧
      getKey? (formatTweet {} counts0 u).1 "attachments"
        = optPop (getKey? u "attachments") ∧
      getKey? (formatTweet {} counts0 u).1 "public_metrics"
        = optPop (getKey? u "public_metrics")) ∧
    (∀ (u : Rec) (refsU : List Rec) (qt : Rec),
      getKey? u "referenced_tweets" = some (JVal.arr (refsU.map JVal.obj)) →
      (refsU.filter (isType "quoted")).getLast? = some qt →
      hasKey qt "author_id" = true →
      (formatTweet {} counts0 u).2.quotes = counts0.quotes + 1) ∧
    (∀ (u : Rec) (refsU : List Rec),
      getKey? u "referenced_tweets" = some (JVal.arr (refsU.map JVal.obj)) →
      ((refsU.filter (isType "replied_to")).getLast?).isSome = true →
      (formatTweet {} counts0 u).2.replies = counts0.replies + 1) :=
  merge_retweets_claims {} counts0 tweetM [rtSample] rtSample
    (JVal.str "orig") (JVal.obj [("hashtags", JVal.arr [JVal.str "h"])])
    (JVal.obj [("media_keys", JVal.arr [JVal.str "m"])])
    (JVal.arr [JVal.str "c"]) (JVal.obj [("like_count", JVal.num 3)])
    rfl (by decide) (by decide) (by decide) (by decide) (by decide)
    (by decide) (by decide) (by decide) (by decide) (by decide)

/-! ## Counter-preservation lemmas for the record pipeline -/

theorem inline_fold_parse_errors (cfg : Config) (tw : JVal) (refs : List Rec) :
    ∀ (acc : List Rec) (st : Counts),
    (refs.foldl (inlineStep cfg tw) (acc, st)).2.parse_errors
      = st.parse_errors := by
  induction refs with
  | nil => intro acc st; rfl
  | cons r rest ih =>
    intro acc st
    rw [List.foldl_cons]
    by_cases h : (injectTwarc tw r).length > 3
    · have hstep : inlineStep cfg tw (acc, st) r
          = (acc ++ [(formatTweet cfg
                { st with referenced_tweets := st.referenced_tweets + 1 }
                (injectTwarc tw r)).1],
             (formatTweet cfg
                { st with referenced_tweets := st.referenced_tweets + 1 }
                (injectTwarc tw r)).2) := by
        simp [inlineStep, h]
      rw [hstep, ih]
      exact (formatTweet_counts_preserved cfg _ _).2.2.2.2.2.1
    · have hstep : inlineStep cfg tw (acc, st) r
          = (acc, { st with
              referenced_tweets := st.referenced_tweets + 1,
              unavailable := st.unavailable + 1 }) := by
        simp [inlineStep, h]
      rw [hstep, ih]

theorem inline_parse_errors (cfg : Config) (st : Counts) (t : Rec) :
    (inlineReferencedTweets cfg st t).2.parse_errors = st.parse_errors := by
  unfold inlineReferencedTweets
  split
  · dsimp only
    rw [(formatTweet_counts_preserved cfg _ _).2.2.2.2.2.1,
      inline_fold_parse_errors]
  · exact (formatTweet_counts_preserved cfg _ _).2.2.2.2.2.1

theorem processTweets_parse_errors (cfg : Config) (rows : List Rec) :
    ∀ (ids : List JVal) (st : Counts),
    (processTweets cfg ids st rows).2.2.parse_errors = st.parse_errors := by
  induction rows with
  | nil => intro ids st; rfl
  | cons r rest ih =>
    intro ids st
    simp only [processTweets]
    cases hg : getKey? r "id" with
    | some tid =>
      dsimp only
      rw [ih]
      by_cases hm : tid ∈ ids <;> simp [hm]
    | none =>
      dsimp only
      by_cases hc : cfg.input_data_type == "counts" <;> simp [hc, ih]

theorem processRecords_parse_errors (cfg : Config) (recs : List Rec) :
    ∀ (ids : List JVal) (st : Counts),
    (processRecords cfg ids st recs).2.2.parse_errors = st.parse_errors := by
  induction recs with
  | nil => intro ids st; rfl
  | cons r rest ih =>
    intro ids st
    simp only [processRecords]
    rw [ih, processTweets_parse_errors, inline_parse_errors]

/-! ## Claim C2 -/

def cfgC2 : Config :=
  { input_data_type := "compliance", output_columns_arg := some ["id"] }

/-- C2 (counterexample): on a drifting batch the step returns an empty
table whose columns are the declared *input* columns, not the declared
output columns — with `output_columns` set to `id` only, the returned
table's column list differs from the output columns. -/
theorem drift_table_not_output_columns :
    (converterProcess cfgC2 [] counts0
        [Envelope.one [("id", JVal.str "1"), ("zzz", JVal.str "x")]]).1.rows
      = [] ∧
    (converterProcess cfgC2 [] counts0
        [Envelope.one [("id", JVal.str "1"), ("zzz", JVal.str "x")]]).2.2.parse_errors
      = 1 ∧
    (converterProcess cfgC2 [] counts0
        [Envelope.one [("id", JVal.str "1"), ("zzz", JVal.str "x")]]).1.cols
      ≠ cfgC2.outputColumns := by
  decide

/-- C2 (amended): a batch whose observed columns include an undeclared
column is discarded whole — the step returns a zero-row table with
exactly the declared *input* columns (from which the writer later
selects the output columns), and `parse_errors` grows by exactly the
number of rows the batch would have produced. -/
theorem process_drift_discards_batch (cfg : Config) (ids : List JVal)
    (st : Counts) (objects : List Envelope)
    (hd : driftCols cfg
        ((processRecords cfg ids st (objects.flatMap ensureFlattened)).1.map
          flattenRec) ≠ []) :
    (converterProcess cfg ids st objects).1 = ⟨cfg.columns, []⟩ ∧
    (converterProcess cfg ids st objects).2.2.parse_errors
      = st.parse_errors
        + (processRecords cfg ids st (objects.flatMap ensureFlattened)).1.length := by
  have hie : (driftCols cfg
      ((processRecords cfg ids st (objects.flatMap ensureFlattened)).1.map
        flattenRec)).isEmpty = false := by
    cases hdc : driftCols cfg
        ((processRecords cfg ids st (objects.flatMap ensureFlattened)).1.map
          flattenRec) with
    | nil => exact absurd hdc hd
    | cons a l => rfl
  simp only [converterProcess, hie, Bool.false_eq_true, if_false]
  refine ⟨trivial, ?_⟩
  dsimp only
  rw [processRecords_parse_errors, List.length_map]

/-- Closed instance of `process_drift_discards_batch` at the drifting
one-record batch. -/
theorem process_drift_discards_batch_witness :
    (converterProcess cfgC2 [] counts0
        [Envelope.one [("id", JVal.str "1"), ("zzz", JVal.str "x")]]).1
      = ⟨cfgC2.columns, []⟩ ∧
    (converterProcess cfgC2 [] counts0
        [Envelope.one [("id", JVal.str "1"), ("zzz", JVal.str "x")]]).2.2.parse_errors
      = counts0.parse_errors
        + (processRecords cfgC2 [] counts0
            ([Envelope.one [("id", JVal.str "1"), ("zzz", JVal.str "x")]].flatMap
              ensureFlattened)).1.length :=
  process_drift_discards_batch cfgC2 [] counts0
    [Envelope.one [("id", JVal.str "1"), ("zzz", JVal.str "x")]] (by decide)

/-! ## Claim C3 -/

/-- Is this output line the header line? -/
def isHeaderLine : OutLine → Bool
  | .header _ => true
  | .row _ => false

def cfgD : Config := { input_data_type := "compliance" }

/-- C3 (counterexample): a run whose single (first) batch is discarded
by the schema-drift check still writes the header line — the file is
exactly one header and nothing else, although no batch was successfully
written (`rows == 0`, the whole batch counted as `parse_errors`).  The
claim's "the first non-discarded batch writes the header; a discarded
first batch writes rows only with no header" is false on this run. -/
theorem header_written_by_discarded_first_batch :
    (runCSV cfgD 0
        [Line.parsed (Envelope.one [("id", JVal.str "1"), ("zzz", JVal.str "x")])]).1
      = [OutLine.header cfgD.outputColumns] ∧
    (runCSV cfgD 0
        [Line.parsed (Envelope.one [("id", JVal.str "1"), ("zzz", JVal.str "x")])]).2.2.rows
      = 0 ∧
    (runCSV cfgD 0
        [Line.parsed (Envelope.one [("id", JVal.str "1"), ("zzz", JVal.str "x")])]).2.2.parse_errors
      = 1 := by
  decide

theorem runBatches_false_rows_only (cfg : Config) (bs : List (List Envelope)) :
    ∀ (file : List OutLine) (ids : List JVal) (st : Counts),
    ∃ rows : List (List (Option JVal)),
      (runBatches cfg file ids st false bs).1 = file ++ rows.map OutLine.row := by
  induction bs with
  | nil =>
    intro file ids st
    exact ⟨[], by simp [runBatches]⟩
  | cons b rest ih =>
    intro file ids st
    simp only [runBatches, writeOutput, Bool.false_eq_true, if_false]
    rcases ih (file ++ List.map (fun cells => OutLine.row
        (selectRow (converterProcess cfg ids st b).1.cols cfg.outputColumns cells))
        (converterProcess cfg ids st b).1.rows)
      (converterProcess cfg ids st b).2.1
      { (converterProcess cfg ids st b).2.2 with
        rows := (converterProcess cfg ids st b).2.2.rows
          + (converterProcess cfg ids st b).1.rows.length } with ⟨rows2, h2⟩
    refine ⟨(converterProcess cfg ids st b).1.rows.map
      (selectRow (converterProcess cfg ids st b).1.cols cfg.outputColumns)
      ++ rows2, ?_⟩
    rw [h2]
    simp [List.map_map, List.append_assoc]

/-- C3 (amended): every run with at least one batch writes exactly one
header line, and it is written by the *first* batch — discarded or not
(the first write uses mode `"w"` with `header=True` even for a zero-row
table); every later batch appends data rows only. -/
theorem header_once_first_batch (cfg : Config) (bs : List (List Envelope))
    (ids : List JVal) (st : Counts) (hne : bs ≠ []) :
    (∃ rows : List (List (Option JVal)),
      (runBatches cfg [] ids st true bs).1
        = OutLine.header cfg.outputColumns :: rows.map OutLine.row) ∧
    ((runBatches cfg [] ids st true bs).1.countP isHeaderLine) = 1 := by
  cases bs with
  | nil => exact absurd rfl hne
  | cons b rest =>
    have hstep : (runBatches cfg [] ids st true (b :: rest)).1
        = (runBatches cfg
            (OutLine.header cfg.outputColumns
              :: (converterProcess cfg ids st b).1.rows.map (fun cells =>
                OutLine.row (selectRow (converterProcess cfg ids st b).1.cols
                  cfg.outputColumns cells)))
            (converterProcess cfg ids st b).2.1
            { (converterProcess cfg ids st b).2.2 with
              rows := (converterProcess cfg ids st b).2.2.rows
                + (converterProcess cfg ids st b).1.rows.length }
            false rest).1 := by
      simp only [runBatches, writeOutput, if_true]
    rcases runBatches_false_rows_only cfg rest
        (OutLine.header cfg.outputColumns
          :: (converterProcess cfg ids st b).1.rows.map (fun cells =>
            OutLine.row (selectRow (converterProcess cfg ids st b).1.cols
              cfg.outputColumns cells)))
        (converterProcess cfg ids st b).2.1
        { (converterProcess cfg ids st b).2.2 with
          rows := (converterProcess cfg ids st b).2.2.rows
            + (converterProcess cfg ids st b).1.rows.length } with ⟨rows2, h2⟩
    have hfile : (runBatches cfg [] ids st true (b :: rest)).1
        = OutLine.header cfg.outputColumns
          :: ((converterProcess cfg ids st b).1.rows.map
              (selectRow (converterProcess cfg ids st b).1.cols cfg.outputColumns)
            ++ rows2).map OutLine.row := by
      rw [hstep, h2]
      simp [List.map_map]
    refine ⟨⟨_, hfile⟩, ?_⟩
    rw [hfile]
    rw [List.countP_cons]
    have hz : ∀ rows : List (List (Option JVal)),
        (rows.map OutLine.row).countP isHeaderLine = 0 := by
      intro rows
      induction rows with
      | nil => rfl
      | cons a l ihl => simp [List.countP_cons, ihl, isHeaderLine]
    rw [hz]
    rfl

/-- Closed instance of `header_once_first_batch`. -/
theorem header_once_first_batch_witness :
    (∃ rows : List (List (Option JVal)),
      (runBatches cfgD [] [] counts0 true
          [[Envelope.one [("id", JVal.str "1")]]]).1
        = OutLine.header cfgD.outputColumns :: rows.map OutLine.row) ∧
    ((runBatches cfgD [] [] counts0 true
        [[Envelope.one [("id", JVal.str "1")]]]).1.countP isHeaderLine) = 1 :=
  header_once_first_batch cfgD [[Envelope.one [("id", JVal.str "1")]]] []
    counts0 (List.cons_ne_nil _ _)

/-! ## State-shift and preservation lemmas for batch invariance -/

/-- The `replies` / `retweets` / `quotes` increments of `_format_tweet`
as a function of the record alone. -/
def fmtDeltas (t0 : Rec) : Nat × Nat × Nat :=
  let t := eraseKey (eraseKey t0 "pinned_tweet") "in_reply_to_user"
  if hasKey t "referenced_tweets" then
    let refs := refsOf t
    let replyTweet := (refs.filter (isType "replied_to")).getLast?
    let retweetedTweet := (refs.filter (isType "retweeted")).getLast?
    let quotedTweet := (refs.filter (isType "quoted")).getLast?
    ((if hasKey t "in_reply_to_user_id" || replyTweet.isSome then 1 else 0),
     (match retweetedTweet with
      | some rt => if hasKey rt "author_id" then 1 else 0
      | none => 0),
     (match quotedTweet with
      | some qt => if hasKey qt "author_id" then 1 else 0
      | none => 0))
  else (0, 0, 0)

theorem formatTweet_snd_eq (cfg : Config) (st : Counts) (t : Rec) :
    (formatTweet cfg st t).2
      = { st with replies := st.replies + (fmtDeltas t).1,
                  retweets := st.retweets + (fmtDeltas t).2.1,
                  quotes := st.quotes + (fmtDeltas t).2.2 } := by
  simp only [formatTweet, fmtDeltas]
  split
  · dsimp only
    (repeat' split) <;> simp
  · simp


/-- Two counter states that agree on every field except `rows` (the
only counter the writer itself advances between batches). -/
def Counts.exceptRows (a b : Counts) : Prop :=
  a.lines = b.lines ∧ a.tweets = b.tweets ∧
  a.referenced_tweets = b.referenced_tweets ∧ a.retweets = b.retweets ∧
  a.quotes = b.quotes ∧ a.replies = b.replies ∧
  a.unavailable = b.unavailable ∧ a.non_objects = b.non_objects ∧
  a.parse_errors = b.parse_errors ∧ a.duplicates = b.duplicates

theorem exceptRows_refl (a : Counts) : Counts.exceptRows a a := by
  unfold Counts.exceptRows
  omega

theorem exceptRows_trans {a b c : Counts} (h1 : Counts.exceptRows a b)
    (h2 : Counts.exceptRows b c) : Counts.exceptRows a c := by
  unfold Counts.exceptRows at h1 h2 ⊢
  omega

theorem formatTweet_except (cfg : Config) (t : Rec) {st1 st2 : Counts}
    (h : Counts.exceptRows st1 st2) :
    (formatTweet cfg st1 t).1 = (formatTweet cfg st2 t).1 ∧
    Counts.exceptRows (formatTweet cfg st1 t).2 (formatTweet cfg st2 t).2 ∧
    (formatTweet cfg st1 t).2.rows = st1.rows ∧
    (formatTweet cfg st2 t).2.rows = st2.rows := by
  refine ⟨formatTweet_fst_st cfg st1 st2 t, ?_,
    (formatTweet_counts_preserved cfg st1 t).2.2.2.2.2.2.2,
    (formatTweet_counts_preserved cfg st2 t).2.2.2.2.2.2.2⟩
  rw [formatTweet_snd_eq, formatTweet_snd_eq]
  unfold Counts.exceptRows at h ⊢
  dsimp only
  omega

theorem bump_referenced_except {st1 st2 : Counts}
    (h : Counts.exceptRows st1 st2) :
    Counts.exceptRows
      { st1 with referenced_tweets := st1.referenced_tweets + 1 }
      { st2 with referenced_tweets := st2.referenced_tweets + 1 } := by
  unfold Counts.exceptRows at h ⊢
  dsimp only
  omega

theorem inline_fold_except (cfg : Config) (tw : JVal) (refs : List Rec) :
    ∀ (acc : List Rec) (st1 st2 : Counts),
    Counts.exceptRows st1 st2 →
    (refs.foldl (inlineStep cfg tw) (acc, st1)).1
      = (refs.foldl (inlineStep cfg tw) (acc, st2)).1 ∧
    Counts.exceptRows (refs.foldl (inlineStep cfg tw) (acc, st1)).2
      (refs.foldl (inlineStep cfg tw) (acc, st2)).2 ∧
    (refs.foldl (inlineStep cfg tw) (acc, st1)).2.rows = st1.rows ∧
    (refs.foldl (inlineStep cfg tw) (acc, st2)).2.rows = st2.rows := by
  induction refs with
  | nil =>
    intro acc st1 st2 h
    exact ⟨rfl, h, rfl, rfl⟩
  | cons r rest ih =>
    intro acc st1 st2 h
    rw [List.foldl_cons, List.foldl_cons]
    by_cases hl : (injectTwarc tw r).length > 3
    · have e1 : inlineStep cfg tw (acc, st1) r
          = (acc ++ [(formatTweet cfg
                { st1 with referenced_tweets := st1.referenced_tweets + 1 }
                (injectTwarc tw r)).1],
             (formatTweet cfg
                { st1 with referenced_tweets := st1.referenced_tweets + 1 }
                (injectTwarc tw r)).2) := by
        simp [inlineStep, hl]
      have e2 : inlineStep cfg tw (acc, st2) r
          = (acc ++ [(formatTweet cfg
                { st2 with referenced_tweets := st2.referenced_tweets + 1 }
                (injectTwarc tw r)).1],
             (formatTweet cfg
                { st2 with referenced_tweets := st2.referenced_tweets + 1 }
                (injectTwarc tw r)).2) := by
        simp [inlineStep, hl]
      have hb := bump_referenced_except h
      have hf := formatTweet_except cfg (injectTwarc tw r) hb
      rw [e1, e2, hf.1]
      have := ih (acc ++ [(formatTweet cfg
          { st2 with referenced_tweets := st2.referenced_tweets + 1 }
          (injectTwarc tw r)).1])
        (formatTweet cfg
          { st1 with referenced_tweets := st1.referenced_tweets + 1 }
          (injectTwarc tw r)).2
        (formatTweet cfg
          { st2 with referenced_tweets := st2.referenced_tweets + 1 }
          (injectTwarc tw r)).2 hf.2.1
      refine ⟨this.1, this.2.1, ?_, ?_⟩
      · rw [this.2.2.1, hf.2.2.1]
      · rw [this.2.2.2, hf.2.2.2]
    · have e1 : inlineStep cfg tw (acc, st1) r
          = (acc, { st1 with
              referenced_tweets := st1.referenced_tweets + 1,
              unavailable := st1.unavailable + 1 }) := by
        simp [inlineStep, hl]
      have e2 : inlineStep cfg tw (acc, st2) r
          = (acc, { st2 with
              referenced_tweets := st2.referenced_tweets + 1,
              unavailable := st2.unavailable + 1 }) := by
        simp [inlineStep, hl]
      rw [e1, e2]
      have hb : Counts.exceptRows
          { st1 with
            referenced_tweets := st1.referenced_tweets + 1,
            unavailable := st1.unavailable + 1 }
          { st2 with
            referenced_tweets := st2.referenced_tweets + 1,
            unavailable := st2.unavailable + 1 } := by
        unfold Counts.exceptRows at h ⊢
        dsimp only
        omega
      have := ih acc _ _ hb
      exact ⟨this.1, this.2.1, this.2.2.1, this.2.2.2⟩

theorem inline_except (cfg : Config) (t : Rec) {st1 st2 : Counts}
    (h : Counts.exceptRows st1 st2) :
    (inlineReferencedTweets cfg st1 t).1 = (inlineReferencedTweets cfg st2 t).1 ∧
    Counts.exceptRows (inlineReferencedTweets cfg st1 t).2
      (inlineReferencedTweets cfg st2 t).2 ∧
    (inlineReferencedTweets cfg st1 t).2.rows = st1.rows ∧
    (inlineReferencedTweets cfg st2 t).2.rows = st2.rows := by
  unfold inlineReferencedTweets
  split
  · dsimp only
    have hfold := inline_fold_except cfg ((getKey? t "__twarc").getD JVal.null)
      (refsOf t) [] st1 st2 h
    have hf := formatTweet_except cfg
      (setKey t "referenced_tweets"
        (JVal.arr (((refsOf t).map
          (injectTwarc ((getKey? t "__twarc").getD JVal.null))).map JVal.obj)))
      hfold.2.1
    refine ⟨?_, hf.2.1, ?_, ?_⟩
    · rw [hfold.1, hf.1]
    · rw [hf.2.2.1, hfold.2.2.1]
    · rw [hf.2.2.2, hfold.2.2.2]
  · dsimp only
    have hf := formatTweet_except cfg t h
    exact ⟨by rw [hf.1], hf.2.1, hf.2.2.1, hf.2.2.2⟩

theorem processTweets_except (cfg : Config) (rows : List Rec) :
    ∀ (ids : List JVal) (st1 st2 : Counts),
    Counts.exceptRows st1 st2 →
    (processTweets cfg ids st1 rows).1 = (processTweets cfg ids st2 rows).1 ∧
    (processTweets cfg ids st1 rows).2.1 = (processTweets cfg ids st2 rows).2.1 ∧
    Counts.exceptRows (processTweets cfg ids st1 rows).2.2
      (processTweets cfg ids st2 rows).2.2 ∧
    (processTweets cfg ids st1 rows).2.2.rows = st1.rows ∧
    (processTweets cfg ids st2 rows).2.2.rows = st2.rows := by
  induction rows with
  | nil =>
    intro ids st1 st2 h
    exact ⟨rfl, rfl, h, rfl, rfl⟩
  | cons r rest ih =>
    intro ids st1 st2 h
    simp only [processTweets]
    cases hg : getKey? r "id" with
    | some tid =>
      dsimp only
      by_cases hm : tid ∈ ids
      · simp only [hm, if_true]
        have hb : Counts.exceptRows
            { st1 with
              tweets := st1.tweets + 1,
              duplicates := st1.duplicates + 1 }
            { st2 with
              tweets := st2.tweets + 1,
              duplicates := st2.duplicates + 1 } := by
          unfold Counts.exceptRows at h ⊢
          dsimp only
          omega
        have := ih ids _ _ hb
        refine ⟨by rw [this.1], by rw [this.2.1], this.2.2.1, this.2.2.2.1,
          this.2.2.2.2⟩
      · simp only [hm, if_false]
        have hb : Counts.exceptRows
            ({ st1 with tweets := st1.tweets + 1 } : Counts)
            ({ st2 with tweets := st2.tweets + 1 } : Counts) := by
          unfold Counts.exceptRows at h ⊢
          dsimp only
          omega
        have := ih (ids ++ [tid]) _ _ hb
        refine ⟨by rw [this.1], by rw [this.2.1], this.2.2.1, this.2.2.2.1,
          this.2.2.2.2⟩
    | none =>
      dsimp only
      by_cases hc : cfg.input_data_type == "counts"
      · simp only [hc, if_true]
        have hb : Counts.exceptRows
            ({ st1 with tweets := st1.tweets + 1 } : Counts)
            ({ st2 with tweets := st2.tweets + 1 } : Counts) := by
          unfold Counts.exceptRows at h ⊢
          dsimp only
          omega
        have := ih ids _ _ hb
        refine ⟨by rw [this.1], by rw [this.2.1], this.2.2.1, this.2.2.2.1,
          this.2.2.2.2⟩
      · simp only [hc, if_false]
        have hb : Counts.exceptRows
            ({ st1 with non_objects := st1.non_objects + 1 } : Counts)
            ({ st2 with non_objects := st2.non_objects + 1 } : Counts) := by
          unfold Counts.exceptRows at h ⊢
          dsimp only
          omega
        have := ih ids _ _ hb
        exact ⟨this.1, this.2.1, this.2.2.1, this.2.2.2.1, this.2.2.2.2⟩

theorem processRecords_except (cfg : Config) (recs : List Rec) :
    ∀ (ids : List JVal) (st1 st2 : Counts),
    Counts.exceptRows st1 st2 →
    (processRecords cfg ids st1 recs).1 = (processRecords cfg ids st2 recs).1 ∧
    (processRecords cfg ids st1 recs).2.1
      = (processRecords cfg ids st2 recs).2.1 ∧
    Counts.exceptRows (processRecords cfg ids st1 recs).2.2
      (processRecords cfg ids st2 recs).2.2 ∧
    (processRecords cfg ids st1 recs).2.2.rows = st1.rows ∧
    (processRecords cfg ids st2 recs).2.2.rows = st2.rows := by
  induction recs with
  | nil =>
    intro ids st1 st2 h
    exact ⟨rfl, rfl, h, rfl, rfl⟩
  | cons r rest ih =>
    intro ids st1 st2 h
    simp only [processRecords]
    have hi := inline_except cfg r h
    have hp := processTweets_except cfg (inlineReferencedTweets cfg st2 r).1 ids
      _ _ hi.2.1
    have hp1 : processTweets cfg ids (inlineReferencedTweets cfg st1 r).2
        (inlineReferencedTweets cfg st1 r).1
        = processTweets cfg ids (inlineReferencedTweets cfg st1 r).2
          (inlineReferencedTweets cfg st2 r).1 := by
      rw [hi.1]
    have hrec := ih (processTweets cfg ids (inlineReferencedTweets cfg st2 r).2
        (inlineReferencedTweets cfg st2 r).1).2.1 _ _ hp.2.2.1
    rw [hp1]
    rw [hp.1, hp.2.1]
    refine ⟨by rw [hrec.1], by rw [hrec.2.1], hrec.2.2.1, ?_, ?_⟩
    · rw [hrec.2.2.2.1, hp.2.2.2.1, hi.2.2.1]
    · rw [hrec.2.2.2.2, hp.2.2.2.2, hi.2.2.2]

/-! ## Batch concatenation and schema-clean batches -/

theorem processRecords_append (cfg : Config) (xs ys : List Rec) :
    ∀ (ids : List JVal) (st : Counts),
    processRecords cfg ids st (xs ++ ys)
      = ((processRecords cfg ids st xs).1
          ++ (processRecords cfg (processRecords cfg ids st xs).2.1
              (processRecords cfg ids st xs).2.2 ys).1,
         (processRecords cfg (processRecords cfg ids st xs).2.1
            (processRecords cfg ids st xs).2.2 ys).2) := by
  induction xs with
  | nil => intro ids st; simp [processRecords]
  | cons r rest ih =>
    intro ids st
    simp only [List.cons_append, processRecords]
    simp only [List.append_eq]
    rw [ih]
    simp [List.append_assoc]

theorem mem_dedupFold (ks : List String) :
    ∀ (acc : List String) (x : String),
    x ∈ ks.foldl (fun acc k => if acc.contains k then acc else acc ++ [k]) acc →
    x ∈ acc ∨ x ∈ ks := by
  induction ks with
  | nil =>
    intro acc x h
    exact Or.inl h
  | cons k rest ih =>
    intro acc x h
    rw [List.foldl_cons] at h
    by_cases hc : acc.contains k
    · rw [if_pos hc] at h
      rcases ih acc x h with h1 | h2
      · exact Or.inl h1
      · exact Or.inr (List.mem_cons_of_mem _ h2)
    · rw [if_neg hc] at h
      rcases ih (acc ++ [k]) x h with h1 | h2
      · rcases List.mem_append.mp h1 with h3 | h4
        · exact Or.inl h3
        · exact Or.inr (by simp at h4; simp [h4])
      · exact Or.inr (List.mem_cons_of_mem _ h2)

theorem driftCols_nil (cfg : Config) (flat : List (List (String × JVal)))
    (h : ∀ row ∈ flat, ∀ k ∈ row.map Prod.fst, cfg.columns.contains k = true) :
    driftCols cfg flat = [] := by
  unfold driftCols
  rw [List.filter_eq_nil_iff]
  intro c hc
  have hmem : c ∈ flat.flatMap (fun row => row.map Prod.fst) := by
    rcases mem_dedupFold _ [] c hc with h1 | h2
    · cases h1
    · exact h2
  rcases List.mem_flatMap.mp hmem with ⟨row, hrow, hk⟩
  have := h row hrow c hk
  simp only [this, Bool.not_true, Bool.false_eq_true, not_false_eq_true]

theorem converterProcess_no_drift (cfg : Config) (ids : List JVal)
    (st : Counts) (objects : List Envelope)
    (h : ∀ r ∈ (processRecords cfg ids st (objects.flatMap ensureFlattened)).1,
        ∀ k ∈ (flattenRec r).map Prod.fst, cfg.columns.contains k = true) :
    converterProcess cfg ids st objects
      = (⟨cfg.columns,
          (processRecords cfg ids st (objects.flatMap ensureFlattened)).1.map
            (fun r => (reindexRow cfg.columns (flattenRec r)).map
              (Option.map (procCell cfg)))⟩,
         (processRecords cfg ids st (objects.flatMap ensureFlattened)).2) := by
  have hd : driftCols cfg
      ((processRecords cfg ids st (objects.flatMap ensureFlattened)).1.map
        flattenRec) = [] := by
    apply driftCols_nil
    intro row hrow k hk
    rcases List.mem_map.mp hrow with ⟨r, hr, hfr⟩
    exact h r hr k (by rw [hfr]; exact hk)
  simp only [converterProcess, hd, List.isEmpty_nil, if_true, List.map_map]
  rfl

theorem chunksGo_join (n : Nat) :
    ∀ (fuel : Nat) (l : List α), l.length ≤ fuel →
    (chunksGo n fuel l).flatten = l := by
  intro fuel
  induction fuel with
  | zero =>
    intro l h
    cases l with
    | nil => rfl
    | cons a t => simp at h
  | succ f ih =>
    intro l h
    cases l with
    | nil => rfl
    | cons a t =>
      simp only [chunksGo, List.flatten_cons]
      rw [ih (t.drop n) (by simp at h ⊢; omega)]
      simp [List.take_append_drop]

theorem chunksSucc_join (n : Nat) (l : List α) :
    (chunksSucc n l).flatten = l :=
  chunksGo_join n l.length l (le_refl _)

/-- The output line a record contributes after normalization, reindexing
to the declared input columns, cell transforms, and selection of the
output columns. -/
def rowLine (cfg : Config) (r : Rec) : OutLine :=
  OutLine.row (selectRow cfg.columns cfg.outputColumns
    ((reindexRow cfg.columns (flattenRec r)).map (Option.map (procCell cfg))))

theorem exceptRows_set_rows (a : Counts) (R : Nat) :
    Counts.exceptRows { a with rows := R } a := by
  unfold Counts.exceptRows
  dsimp only
  omega

theorem runBatches_no_drift (cfg : Config) (batches : List (List Envelope)) :
    ∀ (file : List OutLine) (ids : List JVal) (st : Counts),
    (∀ r ∈ (processRecords cfg ids st
        ((batches.flatten).flatMap ensureFlattened)).1,
        ∀ k ∈ (flattenRec r).map Prod.fst, cfg.columns.contains k = true) →
    (runBatches cfg file ids st false batches).1
      = file ++ (processRecords cfg ids st
          ((batches.flatten).flatMap ensureFlattened)).1.map (rowLine cfg) ∧
    (runBatches cfg file ids st false batches).2.1
      = (processRecords cfg ids st
          ((batches.flatten).flatMap ensureFlattened)).2.1 ∧
    Counts.exceptRows (runBatches cfg file ids st false batches).2.2
      (processRecords cfg ids st
        ((batches.flatten).flatMap ensureFlattened)).2.2 ∧
    (runBatches cfg file ids st false batches).2.2.rows
      = st.rows + (processRecords cfg ids st
          ((batches.flatten).flatMap ensureFlattened)).1.length := by
  induction batches with
  | nil =>
    intro file ids st _
    simp [runBatches, processRecords, exceptRows_refl]
  | cons b rest ih =>
    intro file ids st H
    have hflat : ((b :: rest).flatten).flatMap ensureFlattened
        = b.flatMap ensureFlattened
          ++ (rest.flatten).flatMap ensureFlattened := by
      rw [List.flatten_cons, List.flatMap_append]
    have happ := processRecords_append cfg (b.flatMap ensureFlattened)
      ((rest.flatten).flatMap ensureFlattened) ids st
    set recsR := (rest.flatten).flatMap ensureFlattened with hrecsR
    set PRb := processRecords cfg ids st (b.flatMap ensureFlattened) with hPRb
    have Hb : ∀ r ∈ PRb.1,
        ∀ k ∈ (flattenRec r).map Prod.fst, cfg.columns.contains k = true := by
      intro r hr
      exact H r (by rw [hflat, happ]; exact List.mem_append_left _ hr)
    have hcp := converterProcess_no_drift cfg ids st b Hb
    set cellf := fun r => (reindexRow cfg.columns (flattenRec r)).map
      (Option.map (procCell cfg)) with hcellf
    set st1 := { PRb.2.2 with
      rows := PRb.2.2.rows + (PRb.1.map cellf).length } with hst1
    have hx : Counts.exceptRows st1 PRb.2.2 := exceptRows_set_rows _ _
    have hpe := processRecords_except cfg recsR PRb.2.1 st1 PRb.2.2 hx
    have Hrest : ∀ r ∈ (processRecords cfg PRb.2.1 st1 recsR).1,
        ∀ k ∈ (flattenRec r).map Prod.fst, cfg.columns.contains k = true := by
      intro r hr
      rw [hpe.1] at hr
      exact H r (by rw [hflat, happ]; exact List.mem_append_right _ hr)
    have hrec := ih (file ++ PRb.1.map (rowLine cfg)) PRb.2.1 st1 Hrest
    have hstep : runBatches cfg file ids st false (b :: rest)
        = runBatches cfg (file ++ PRb.1.map (rowLine cfg)) PRb.2.1 st1
            false rest := by
      simp only [runBatches, hcp, writeOutput, Bool.false_eq_true, if_false]
      have hmm : (PRb.1.map cellf).map (fun cells =>
            OutLine.row (selectRow cfg.columns cfg.outputColumns cells))
          = PRb.1.map (rowLine cfg) := by
        rw [List.map_map]
        rfl
      rw [hmm]
    rw [hstep]
    have hrows_b : PRb.2.2.rows = st.rows :=
      (processRecords_except cfg (b.flatMap ensureFlattened) ids st st
        (exceptRows_refl st)).2.2.2.1
    refine ⟨?_, ?_, ?_, ?_⟩
    · rw [hrec.1, hpe.1, hflat, happ]
      dsimp only
      rw [List.map_append, List.append_assoc]
    · rw [hrec.2.1, hpe.2.1, hflat, happ]
    · refine exceptRows_trans (exceptRows_trans hrec.2.2.1 hpe.2.2.1) ?_
      rw [hflat, happ]
      exact exceptRows_refl _
    · rw [hrec.2.2.2, hflat, happ]
      have h2 : (processRecords cfg PRb.2.1 st1 recsR).1.length
          = (processRecords cfg PRb.2.1 PRb.2.2 recsR).1.length := by
        rw [hpe.1]
      rw [h2]
      have h1 : st1.rows = PRb.2.2.rows + (PRb.1.map cellf).length := rfl
      rw [h1, hrows_b, List.length_map]
      dsimp only
      rw [List.length_append]
      omega

theorem eq_set_rows_of_exceptRows {a b : Counts} {R : Nat}
    (h : Counts.exceptRows a b) (hr : a.rows = R) :
    a = { b with rows := R } := by
  cases a
  cases b
  unfold Counts.exceptRows at h
  dsimp only at h hr
  obtain ⟨h1, h2, h3, h4, h5, h6, h7, h8, h9, h10⟩ := h
  simp only [Counts.mk.injEq]
  exact ⟨h1, h2, h3, h4, h5, h6, h7, h8, h9, h10, hr⟩

theorem runBatches_true_no_drift (cfg : Config)
    (batches : List (List Envelope)) (ids : List JVal) (st : Counts)
    (hne : batches ≠ [])
    (H : ∀ r ∈ (processRecords cfg ids st
        ((batches.flatten).flatMap ensureFlattened)).1,
        ∀ k ∈ (flattenRec r).map Prod.fst, cfg.columns.contains k = true) :
    runBatches cfg [] ids st true batches
      = (OutLine.header cfg.outputColumns
          :: (processRecords cfg ids st
              ((batches.flatten).flatMap ensureFlattened)).1.map (rowLine cfg),
         (processRecords cfg ids st
            ((batches.flatten).flatMap ensureFlattened)).2.1,
         { (processRecords cfg ids st
              ((batches.flatten).flatMap ensureFlattened)).2.2 with
           rows := st.rows + (processRecords cfg ids st
              ((batches.flatten).flatMap ensureFlattened)).1.length }) := by
  cases batches with
  | nil => exact absurd rfl hne
  | cons b rest =>
    have hflat : ((b :: rest).flatten).flatMap ensureFlattened
        = b.flatMap ensureFlattened
          ++ (rest.flatten).flatMap ensureFlattened := by
      rw [List.flatten_cons, List.flatMap_append]
    have happ := processRecords_append cfg (b.flatMap ensureFlattened)
      ((rest.flatten).flatMap ensureFlattened) ids st
    set recsR := (rest.flatten).flatMap ensureFlattened with hrecsR
    set PRb := processRecords cfg ids st (b.flatMap ensureFlattened) with hPRb
    have Hb : ∀ r ∈ PRb.1,
        ∀ k ∈ (flattenRec r).map Prod.fst, cfg.columns.contains k = true := by
      intro r hr
      exact H r (by rw [hflat, happ]; exact List.mem_append_left _ hr)
    have hcp := converterProcess_no_drift cfg ids st b Hb
    set cellf := fun r => (reindexRow cfg.columns (flattenRec r)).map
      (Option.map (procCell cfg)) with hcellf
    set st1 := { PRb.2.2 with
      rows := PRb.2.2.rows + (PRb.1.map cellf).length } with hst1
    have hx : Counts.exceptRows st1 PRb.2.2 := exceptRows_set_rows _ _
    have hpe := processRecords_except cfg recsR PRb.2.1 st1 PRb.2.2 hx
    have Hrest : ∀ r ∈ (processRecords cfg PRb.2.1 st1 recsR).1,
        ∀ k ∈ (flattenRec r).map Prod.fst, cfg.columns.contains k = true := by
      intro r hr
      rw [hpe.1] at hr
      exact H r (by rw [hflat, happ]; exact List.mem_append_right _ hr)
    have hrec := runBatches_no_drift cfg rest
      (OutLine.header cfg.outputColumns :: PRb.1.map (rowLine cfg))
      PRb.2.1 st1 Hrest
    have hstep : runBatches cfg [] ids st true (b :: rest)
        = runBatches cfg
            (OutLine.header cfg.outputColumns :: PRb.1.map (rowLine cfg))
            PRb.2.1 st1 false rest := by
      simp only [runBatches, hcp, writeOutput, if_true]
      have hmm : (PRb.1.map cellf).map (fun cells =>
            OutLine.row (selectRow cfg.columns cfg.outputColumns cells))
          = PRb.1.map (rowLine cfg) := by
        rw [List.map_map]
        rfl
      rw [hmm]
    rw [hstep]
    have hrows_b : PRb.2.2.rows = st.rows :=
      (processRecords_except cfg (b.flatMap ensureFlattened) ids st st
        (exceptRows_refl st)).2.2.2.1
    have hrows_final : (runBatches cfg
        (OutLine.header cfg.outputColumns :: PRb.1.map (rowLine cfg))
        PRb.2.1 st1 false rest).2.2.rows
        = st.rows + (processRecords cfg ids st
            (((b :: rest).flatten).flatMap ensureFlattened)).1.length := by
      rw [hrec.2.2.2, hflat, happ]
      have h2 : (processRecords cfg PRb.2.1 st1 recsR).1.length
          = (processRecords cfg PRb.2.1 PRb.2.2 recsR).1.length := by
        rw [hpe.1]
      rw [h2]
      have h1 : st1.rows = PRb.2.2.rows + (PRb.1.map cellf).length := rfl
      rw [h1, hrows_b, List.length_map]
      dsimp only
      rw [List.length_append]
      omega
    have hexc : Counts.exceptRows (runBatches cfg
        (OutLine.header cfg.outputColumns :: PRb.1.map (rowLine cfg))
        PRb.2.1 st1 false rest).2.2
        (processRecords cfg ids st
          (((b :: rest).flatten).flatMap ensureFlattened)).2.2 := by
      refine exceptRows_trans (exceptRows_trans hrec.2.2.1 hpe.2.2.1) ?_
      rw [hflat, happ]
      exact exceptRows_refl _
    have hcounts := eq_set_rows_of_exceptRows hexc hrows_final
    have hfile : (runBatches cfg
        (OutLine.header cfg.outputColumns :: PRb.1.map (rowLine cfg))
        PRb.2.1 st1 false rest).1
        = OutLine.header cfg.outputColumns
          :: (processRecords cfg ids st
              (((b :: rest).flatten).flatMap ensureFlattened)).1.map
                (rowLine cfg) := by
      rw [hrec.1, hpe.1, hflat, happ]
      dsimp only
      rw [List.map_append]
      rfl
    have hids : (runBatches cfg
        (OutLine.header cfg.outputColumns :: PRb.1.map (rowLine cfg))
        PRb.2.1 st1 false rest).2.1
        = (processRecords cfg ids st
            (((b :: rest).flatten).flatMap ensureFlattened)).2.1 := by
      rw [hrec.2.1, hpe.2.1, hflat, happ]
    rw [Prod.ext_iff, Prod.ext_iff]
    exact ⟨hfile, hids, hcounts⟩

/-! ## Claim C6 -/

/-- C6 (counterexample): with a record carrying an undeclared column
followed by a clean record, batch size 1 writes the clean record's row
(`rows == 1`) while batch size 10000 discards the single batch holding
both records (`rows == 0`) — so batching does change which rows are
produced.  (`runCSV` takes the batch size minus one: `0` is batch size
1, `9999` is batch size 10000.) -/
theorem batch_size_changes_output :
    (runCSV cfgD 0
        [Line.parsed (Envelope.one [("id", JVal.str "1"), ("zzz", JVal.str "x")]),
         Line.parsed (Envelope.one [("id", JVal.str "2")])]).2.2.rows = 1 ∧
    (runCSV cfgD 9999
        [Line.parsed (Envelope.one [("id", JVal.str "1"), ("zzz", JVal.str "x")]),
         Line.parsed (Envelope.one [("id", JVal.str "2")])]).2.2.rows = 0 ∧
    (runCSV cfgD 0
        [Line.parsed (Envelope.one [("id", JVal.str "1"), ("zzz", JVal.str "x")]),
         Line.parsed (Envelope.one [("id", JVal.str "2")])]).1.length = 2 ∧
    (runCSV cfgD 9999
        [Line.parsed (Envelope.one [("id", JVal.str "1"), ("zzz", JVal.str "x")]),
         Line.parsed (Envelope.one [("id", JVal.str "2")])]).1.length = 1 := by
  decide

/-- C6 (amended): as long as no batch is discarded by the schema-drift
check — i.e. every row the record pipeline produces flattens into the
declared input columns — the whole run (output file, seen-identity set
and every counter) is identical for ANY two batch sizes: batching
changes only the chunking of writes.  When a drifting batch occurs, the
discarded extent depends on the batch size (see the counterexample). -/
theorem batch_size_invariance (cfg : Config) (m n : Nat) (input : List Line)
    (H : ∀ r ∈ (processRecords cfg [] (readLines counts0 input).2
        ((readLines counts0 input).1.flatMap ensureFlattened)).1,
        ∀ k ∈ (flattenRec r).map Prod.fst, cfg.columns.contains k = true) :
    runCSV cfg m input = runCSV cfg n input := by
  unfold runCSV
  dsimp only
  cases he : (readLines counts0 input).1 with
  | nil =>
    rfl
  | cons e rest =>
    rw [he] at H
    have hj : ∀ k : Nat, ((chunksSucc k (e :: rest)).flatten).flatMap
        ensureFlattened = (e :: rest).flatMap ensureFlattened := by
      intro k
      rw [chunksSucc_join]
    have hne : ∀ k : Nat, chunksSucc k (e :: rest) ≠ [] := by
      intro k
      rw [chunksSucc_cons]
      exact List.cons_ne_nil _ _
    have Hm : ∀ r ∈ (processRecords cfg [] (readLines counts0 input).2
        (((chunksSucc m (e :: rest)).flatten).flatMap ensureFlattened)).1,
        ∀ k ∈ (flattenRec r).map Prod.fst, cfg.columns.contains k = true := by
      rw [hj m]
      exact H
    have Hn : ∀ r ∈ (processRecords cfg [] (readLines counts0 input).2
        (((chunksSucc n (e :: rest)).flatten).flatMap ensureFlattened)).1,
        ∀ k ∈ (flattenRec r).map Prod.fst, cfg.columns.contains k = true := by
      rw [hj n]
      exact H
    rw [runBatches_true_no_drift cfg (chunksSucc m (e :: rest)) []
        (readLines counts0 input).2 (hne m) Hm,
      runBatches_true_no_drift cfg (chunksSucc n (e :: rest)) []
        (readLines counts0 input).2 (hne n) Hn,
      hj m, hj n]

/-- Closed instance of `batch_size_invariance`: two clean records, batch
sizes 1 and 10000. -/
theorem batch_size_invariance_witness :
    runCSV cfgD 0
        [Line.parsed (Envelope.one [("id", JVal.str "1")]),
         Line.parsed (Envelope.one [("id", JVal.str "2")])]
      = runCSV cfgD 9999
        [Line.parsed (Envelope.one [("id", JVal.str "1")]),
         Line.parsed (Envelope.one [("id", JVal.str "2")])] :=
  batch_size_invariance cfgD 0 9999
    [Line.parsed (Envelope.one [("id", JVal.str "1")]),
     Line.parsed (Envelope.one [("id", JVal.str "2")])] (by decide)

/-! ## Claim C8 -/

set_option maxHeartbeats 2000000 in
set_option maxRecDepth 4000 in
/-- C8: on an input of one unparseable line followed by one valid tweet
record line, the run completes with `lines == 2`, `parse_errors == 1`
and `rows == 1`; and a blank line is skipped — counted in `lines` but
yielding no envelope and no parse error. -/
theorem error_line_scenario :
    (runCSV {} 99
        [Line.malformed,
         Line.parsed (Envelope.one [("id", JVal.str "1")])]).2.2.lines = 2 ∧
    (runCSV {} 99
        [Line.malformed,
         Line.parsed (Envelope.one [("id", JVal.str "1")])]).2.2.parse_errors = 1 ∧
    (runCSV {} 99
        [Line.malformed,
         Line.parsed (Envelope.one [("id", JVal.str "1")])]).2.2.rows = 1 ∧
    (readLines counts0 [Line.blank]).1 = [] ∧
    (readLines counts0 [Line.blank]).2.lines = 1 ∧
    (readLines counts0 [Line.blank]).2.parse_errors = 0 := by
  decide
